import Mathlib

/-!
# ArduinoCloudHumidity: a shallow embedding of `main.go`

The program is one linear pipeline (`main`) followed by one forwarder
(`formTOPala`).  Every interaction with the outside (environment variables,
the OAuth2 token endpoint, the IoT REST API, the clock, the multipart writer,
the HTTP client) is a field of `World`; a run is the list of events the code
performs together with the process exit code.

`float64` is modelled exactly: a value is NaN, an infinity, or a signed
integer mantissa times a power of two, and every operation rounds to nearest,
ties to even, as Go's `float64` arithmetic does.
-/

namespace ArduinoCloudHumidity

/-! ## float64 -/

/-- A `float64`: NaN, a signed infinity, or `(-1)^neg * m * 2^e`. -/
inductive F64 where
  | nan : F64
  | inf (neg : Bool) : F64
  | fin (neg : Bool) (m : Nat) (e : Int) : F64
  deriving DecidableEq, Repr

/-- Number of binary digits of `n`, by halving at most `fuel` times. -/
def bitLenAux : Nat → Nat → Nat
  | 0, _ => 0
  | fuel + 1, n => if n = 0 then 0 else bitLenAux fuel (n / 2) + 1

/-- Number of binary digits of `n` (`0` for `0`). -/
def bitLen (n : Nat) : Nat := bitLenAux n n

namespace F64

/-- Smallest exponent of a binary64 mantissa unit (subnormal spacing `2^-1074`). -/
def eMin : Int := -1074

/-- Largest exponent of a 53-bit integer mantissa of a finite binary64. -/
def eMax : Int := 971

/-- The finite binary64 values in canonical form: a 53-bit mantissa, an
exponent in range, and a mantissa below `2^52` only at the smallest exponent. -/
def valid : F64 → Prop
  | nan => True
  | inf _ => True
  | fin _ m e => m < 2 ^ 53 ∧ eMin ≤ e ∧ e ≤ eMax ∧ (m < 2 ^ 52 → e = eMin)

instance (x : F64) : Decidable (valid x) := by
  cases x <;> unfold valid <;> infer_instance

/-- The rational number a finite value denotes (`0` for NaN and infinities). -/
def toRat : F64 → ℚ
  | fin neg m e => (if neg then -1 else 1) * (m : ℚ) * (2 : ℚ) ^ e
  | _ => 0

/-- The largest finite binary64, `(2^53 - 1) * 2^971`. -/
def maxFinite : ℚ := (2 ^ 53 - 1) * 2 ^ 971

/-- The value `r` is a binary64 nearest to the rational `x`: a canonical
finite value such that no canonical finite value is closer to `x`. -/
def IsNearest (x : ℚ) (r : F64) : Prop :=
  (∃ neg m e, r = fin neg m e) ∧ valid r ∧
    ∀ neg m e, valid (fin neg m e) → |toRat r - x| ≤ |toRat (fin neg m e) - x|

/-- The integer `N` in units of `2^g` stands for the magnitude `X`: it is `X`
exactly, or `N` is odd, has at least 55 digits, and `X` lies strictly between
`N - 1` and `N + 1` units (the last digit of `N` is a sticky bit). -/
def StandsFor (N : Nat) (g : Int) (X : ℚ) : Prop :=
  X * (2 : ℚ) ^ (-g) = N ∨
    (N % 2 = 1 ∧ 2 ^ 54 ≤ N ∧ (N : ℚ) - 1 < X * (2 : ℚ) ^ (-g) ∧ X * (2 : ℚ) ^ (-g) < N + 1)

/-- Assemble a rounded mantissa `q` at exponent `e`: a mantissa that reached
`2^53` carries into the next exponent, and an exponent above `eMax` overflows
to infinity. -/
def pack (neg : Bool) (q : Nat) (e : Int) : F64 :=
  if q = 2 ^ 53 then
    if e + 1 > eMax then inf neg else fin neg (2 ^ 52) (e + 1)
  else if e > eMax then inf neg else fin neg q e

/-- Round `(-1)^neg * m * 2^e` to the nearest binary64, ties to even. -/
def round (neg : Bool) (m : Nat) (e : Int) : F64 :=
  if m = 0 then fin neg 0 eMin
  else
    let t : Int := max (e + (bitLen m : Int) - 53) eMin
    if t ≤ e then
      pack neg (m * 2 ^ (e - t).toNat) t
    else
      let s : Nat := (t - e).toNat
      let q : Nat := m / 2 ^ s
      let r : Nat := m % 2 ^ s
      let h : Nat := 2 ^ (s - 1)
      pack neg (if h < r ∨ (r = h ∧ q % 2 = 1) then q + 1 else q) t

/-- Conversion `float64(n)` of an integer. -/
def ofInt (n : Int) : F64 := round (decide (n < 0)) n.natAbs 0

/-- The zero value of a `float64` variable. -/
def zero : F64 := fin false 0 eMin

/-- Go's `x + y` on `float64`. -/
def add : F64 → F64 → F64
  | nan, _ => nan
  | _, nan => nan
  | inf a, inf b => if a = b then inf a else nan
  | inf a, fin _ _ _ => inf a
  | fin _ _ _, inf b => inf b
  | fin a m1 e1, fin b m2 e2 =>
    let e : Int := min e1 e2
    let x : Int := (if a then -1 else 1) * ((m1 * 2 ^ (e1 - e).toNat : Nat) : Int)
    let y : Int := (if b then -1 else 1) * ((m2 * 2 ^ (e2 - e).toNat : Nat) : Int)
    let s : Int := x + y
    if s = 0 then fin (a && b) 0 eMin
    else round (decide (s < 0)) s.natAbs e

/-- Go's `x * y` on `float64`. -/
def mul : F64 → F64 → F64
  | nan, _ => nan
  | _, nan => nan
  | inf a, inf b => inf (xor a b)
  | inf a, fin b m _ => if m = 0 then nan else inf (xor a b)
  | fin a m _, inf b => if m = 0 then nan else inf (xor a b)
  | fin a m1 e1, fin b m2 e2 => round (xor a b) (m1 * m2) (e1 + e2)

/-- Go's `x / y` on `float64`.  The quotient of two finite non-zero values is
computed with at least 64 significant bits and a sticky bit for the
remainder, then rounded once. -/
def div : F64 → F64 → F64
  | nan, _ => nan
  | _, nan => nan
  | inf _, inf _ => nan
  | inf a, fin b _ _ => inf (xor a b)
  | fin a _ _, inf b => fin (xor a b) 0 eMin
  | fin a m1 e1, fin b m2 e2 =>
    if m2 = 0 then
      if m1 = 0 then nan else inf (xor a b)
    else if m1 = 0 then fin (xor a b) 0 eMin
    else
      let k : Nat := 64 + bitLen m2
      let q : Nat := (m1 * 2 ^ k) / m2
      let r : Nat := (m1 * 2 ^ k) % m2
      round (xor a b) (2 * q + (if r = 0 then 0 else 1)) (e1 - e2 - (k : Int) - 1)

/-- Magnitude of a finite value truncated toward zero. -/
def truncMag (m : Nat) (e : Int) : Nat :=
  if 0 ≤ e then m * 2 ^ e.toNat else m / 2 ^ (-e).toNat

/-- Go's conversion `int(x)` with a 64-bit `int`: the fraction is discarded
(truncation toward zero).  When the truncated value is not representable
(also for NaN and the infinities) the conversion still succeeds and the Go
specification leaves the result to the implementation: `other` is that
result. -/
def toInt (other : F64 → Int) : F64 → Int
  | fin neg m e =>
    let n : Int := (if neg then -1 else 1) * (truncMag m e : Int)
    if -(2 ^ 63) ≤ n ∧ n ≤ 2 ^ 63 - 1 then n else other (fin neg m e)
  | x => other x

end F64

/-! ## Formatting -/

/-- Decimal rendering of an integer, as `fmt.Sprintf("%v", n)` gives for
Go's integer types. -/
def sprintInt : Int → String
  | Int.ofNat n => Nat.repr n
  | Int.negSucc n => "-" ++ Nat.repr (n + 1)

/-- Zero padding of a natural number to at least `width` decimal digits. -/
def padNat (n width : Nat) : String :=
  let d := Nat.repr n
  String.mk (List.replicate (width - d.length) '0') ++ d

/-- The helper `appendInt(b, x, width)` of Go's `time` package: a minus sign
for a negative `x`, then the magnitude zero-padded to `width` digits. -/
def appendInt (x : Int) (width : Nat) : String :=
  if x < 0 then "-" ++ padNat x.natAbs width else padNat x.natAbs width

/-! ## time.Time -/

/-- An instant as `time.Time` holds it: seconds since the Unix epoch and
nanoseconds within the second.  All times of this program come from
`time.Now()` and carry the process's local zone. -/
structure Time where
  unix : Int
  nsec : Nat
  deriving DecidableEq, Repr

/-- A `time.Duration`: a count of nanoseconds. -/
abbrev Duration := Int

/-- The constant `time.Minute`. -/
def Minute : Duration := 60 * 1000000000

namespace Time

/-- The method `t.Add(d)`. -/
def Add (t : Time) (d : Duration) : Time :=
  let ns : Int := t.unix * 1000000000 + (t.nsec : Int) + d
  { unix := ns / 1000000000, nsec := (ns % 1000000000).toNat }

/-- The method `t.Unix()`. -/
def Unix (t : Time) : Int := t.unix

/-- Year, month and day of the proleptic Gregorian calendar for a count of
days since 1970-01-01. -/
def civil (days : Int) : Int × Int × Int :=
  let z := days + 719468
  let era := z / 146097
  let doe := z - era * 146097
  let yoe := (doe - doe / 1460 + doe / 36524 - doe / 146096) / 365
  let doy := doe - (365 * yoe + yoe / 4 - yoe / 100)
  let mp := (5 * doy + 2) / 153
  let d := doy - (153 * mp + 2) / 5 + 1
  let m := if mp < 10 then mp + 3 else mp - 9
  let y := yoe + era * 400 + (if m ≤ 2 then 1 else 0)
  (y, m, d)

/-- The text `YYYY-MM-DDTHH:MM:SS` followed by a literal `Z` for the wall
clock that reads `wall` seconds since 1970-01-01T00:00:00. -/
def layoutZ (wall : Int) : String :=
  let (y, m, d) := civil (wall / 86400)
  let s := wall % 86400
  appendInt y 4 ++ "-" ++ appendInt m 2 ++ "-" ++ appendInt d 2 ++ "T" ++
    appendInt (s / 3600) 2 ++ ":" ++ appendInt (s % 3600 / 60) 2 ++ ":" ++
    appendInt (s % 60) 2 ++ "Z"

/-- The call `t.Format("2006-01-02T15:04:05Z")` on a time in the local zone.
The layout holds the year, month, day, hour, minute and second elements; its
last character `Z` is not a zone element (those are `Z07`, `Z0700`, `Z07:00`,
...) and is copied as it is.  The elements are those of the time's own
location: `offset` is the local zone's offset from UTC, in seconds east, at
the instant `t`. -/
def Format (offset : Int → Int) (t : Time) : String :=
  layoutZ (t.unix + offset t.unix)

/-- The RFC 3339 text of the instant `t` in UTC, to the second. -/
def rfc3339UTC (t : Time) : String := layoutZ t.unix

end Time

/-! ## Data of the external services -/

/-- The fields of `clientcredentials.Config` the program sets. -/
structure Config where
  ClientID : String
  ClientSecret : String
  TokenURL : String
  EndpointParams : List (String × String)
  deriving DecidableEq, Repr

/-- The fields of `oauth2.Token` the program reads. -/
structure Token where
  AccessToken : String
  Expiry : Time
  deriving DecidableEq, Repr

/-- A device of the device list; the program reads its name. -/
structure Device where
  Id : String
  Name : String
  deriving DecidableEq, Repr

/-- A thing; the program reads its identifier. -/
structure Thing where
  Id : String
  deriving DecidableEq, Repr

/-- One sample of a property time series. -/
structure Sample where
  Time : Time
  Value : F64
  deriving DecidableEq, Repr

/-- The outbound request: method, URL, `Content-Type` header and the form
fields held by the multipart body, in the order they were written. -/
structure Request where
  method : String
  url : String
  contentType : String
  body : List (String × String)
  deriving DecidableEq, Repr

/-- The fields of `http.Response` the program reads. -/
structure Response where
  Status : String
  StatusCode : Nat
  deriving DecidableEq, Repr

/-- An operand of a formatted log or print call. -/
inductive Arg where
  | str (s : String)
  | err (e : String)
  | time (t : Time)
  | series (data : List Sample)
  deriving DecidableEq, Repr

/-- What the program does that is visible outside it, in program order. -/
inductive Event where
  | token (config : Config)
  | logPrintf (format : String) (args : List Arg)
  | logFatalf (format : String) (args : List Arg)
  | devicesV2List (accessToken : String)
  | thingsV2Show (accessToken thingID : String)
  | propertiesV2Timeseries (accessToken thingID pid from_ : String)
  | formTOPala (thingID propID : String) (value : F64) (timestamp : Time)
  | writeField (key value : String)
  | writerClose
  | newRequest (method url : String)
  | clientDo (req : Request)
  | printf (format : String) (args : List Arg)
  | println (args : List Arg)
  | bodyClose
  deriving DecidableEq, Repr

/-- Everything outside the program that a run depends on.  Each service is a
function of the request the program sends, so that a theorem over all worlds
covers every behaviour of the services. -/
structure World where
  /-- The function `os.Getenv`. -/
  getenv : String → String
  /-- The call `config.Token(ctx)`: a token or an error. -/
  token : Config → Except String Token
  /-- The call `DevicesV2List` under an access token. -/
  devicesV2List : String → Except String (List Device)
  /-- The call `ThingsV2Show` under an access token, for a thing ID. -/
  thingsV2Show : String → String → Except String Thing
  /-- The call `PropertiesV2Timeseries` under an access token, for a thing ID,
  a property ID and a `From` filter: the samples of the returned value and
  the error, if any. -/
  propertiesV2Timeseries : String → String → String → String → List Sample × Option String
  /-- The reading of `time.Now()` that builds the `From` filter. -/
  nowQuery : Time
  /-- The reading of `time.Now()` passed to `formTOPala`. -/
  nowSubmit : Time
  /-- The process's local time zone: offset from UTC, seconds east, in effect
  at an instant given in Unix seconds. -/
  zoneOffset : Int → Int
  /-- The implementation-dependent result of `int(x)` for an `x` whose
  truncation is not an `int`. -/
  floatToInt : F64 → Int
  /-- The order in which `range` visits the entries of a map: some
  rearrangement of the entries. -/
  mapRange : (l : List (String × String)) → { l' : List (String × String) // l'.Perm l }
  /-- The call `writer.WriteField(key, value)` on a writer holding the fields
  written so far: an error, if any. -/
  writeField : List (String × String) → String → String → Option String
  /-- The call `writer.Close()`: an error, if any. -/
  writerClose : List (String × String) → Option String
  /-- The boundary chosen by `multipart.NewWriter`. -/
  boundary : String
  /-- The call `http.NewRequest(method, url, body)`: an error, if any. -/
  newRequest : String → String → Option String
  /-- The call `client.Do(req)`: a response or a transport error. -/
  clientDo : Request → Except String Response

/-- A finished run: the events in program order and the process exit code. -/
structure Run where
  trace : List Event
  exit : Nat
  deriving DecidableEq, Repr

/-! ## formTOPala -/

/-- The map literal `formFields` of `formTOPala`, entries in source order. -/
def formFields (w : World) (thingID propID : String) (value : F64) (unixTimestamp : Int) :
    List (String × String) :=
  [ ("apikey", thingID),
    ("iddevice", propID),
    ("value", sprintInt (F64.toInt w.floatToInt (F64.mul value (F64.ofInt 10)))),
    ("type", "2"),
    ("timestamp", sprintInt unixTimestamp) ]

/-- The loop `for key, value := range formFields` of `formTOPala` over the
entries still to visit, on a writer holding `written`: the events, and the
fields the writer holds when the loop ends, or `none` when a `WriteField`
failed and the process exited with code 1. -/
def writeFields (w : World) :
    List (String × String) → List (String × String) → List Event × Option (List (String × String))
  | written, [] => ([], some written)
  | written, (key, value) :: rest =>
    match w.writeField written key value with
    | some err =>
      ([Event.writeField key value,
        Event.printf "Error adding field %s: %v\n" [Arg.str key, Arg.err err]], none)
    | none =>
      let r := writeFields w (written ++ [(key, value)]) rest
      (Event.writeField key value :: r.1, r.2)

/-- The function `formTOPala` of `main.go`, from its entry to the end of the
process. -/
def formTOPala (w : World) (thingID propID : String) (value : F64) (timestamp : Time) : Run :=
  let url := w.getenv "postUrl"
  let unixTimestamp := timestamp.Unix
  let fields := formFields w thingID propID value unixTimestamp
  let entry := [Event.formTOPala thingID propID value timestamp]
  match writeFields w [] (w.mapRange fields).val with
  | (evs, none) => ⟨entry ++ evs, 1⟩
  | (evs, some body) =>
    match w.writerClose body with
    | some err =>
      ⟨entry ++ evs ++ [Event.writerClose,
        Event.println [Arg.str "Error closing writer:", Arg.err err]], 1⟩
    | none =>
      match w.newRequest "POST" url with
      | some err =>
        ⟨entry ++ evs ++ [Event.writerClose, Event.newRequest "POST" url,
          Event.println [Arg.str "Error creating request:", Arg.err err]], 1⟩
      | none =>
        let req : Request :=
          { method := "POST", url := url,
            contentType := "multipart/form-data; boundary=" ++ w.boundary, body := body }
        match w.clientDo req with
        | Except.error err =>
          ⟨entry ++ evs ++ [Event.writerClose, Event.newRequest "POST" url, Event.clientDo req,
            Event.println [Arg.str "Error sending request:", Arg.err err]], 1⟩
        | Except.ok resp =>
          ⟨entry ++ evs ++ [Event.writerClose, Event.newRequest "POST" url, Event.clientDo req,
            Event.println [Arg.str "Response status:", Arg.str resp.Status],
            Event.bodyClose], 0⟩

/-! ## main -/

/-- The configuration `main` builds from the environment. -/
def config (w : World) : Config :=
  { ClientID := w.getenv "clientID",
    ClientSecret := w.getenv "clientSecret",
    TokenURL := w.getenv "tokenUrl",
    EndpointParams := [("audience", w.getenv "audience")] }

/-- The messages `main` logs for a device list. -/
def deviceLog (devices : List Device) : List Event :=
  if devices.length = 0 then [Event.logPrintf "No device found" []]
  else devices.map fun d => Event.logPrintf "Device found: %s" [Arg.str d.Name]

/-- The `From` filter of the time-series query. -/
def fromFilter (w : World) : String :=
  Time.Format w.zoneOffset (w.nowQuery.Add (-100 * Minute))

/-- The loop `for _, d := range data.Data { meanValue = meanValue + d.Value }`
started from the zero value of `meanValue`. -/
def sumValues (data : List Sample) : F64 :=
  data.foldl (fun meanValue d => F64.add meanValue d.Value) F64.zero

/-- The function `main` of `main.go`, from its entry to the end of the
process. -/
def main (w : World) : Run :=
  let thingID := w.getenv "thingID"
  let pid := w.getenv "pid"
  let sensorID := w.getenv "sensorID"
  let cfg := config w
  match w.token cfg with
  | Except.error err =>
    ⟨[Event.token cfg,
      Event.logFatalf "Error retrieving access token, %v" [Arg.err err]], 1⟩
  | Except.ok tok =>
    let t1 := [Event.token cfg,
      Event.logPrintf "Got an access token, will expire on %s" [Arg.time tok.Expiry]]
    let ctx := tok.AccessToken
    match w.devicesV2List ctx with
    | Except.error err =>
      ⟨t1 ++ [Event.devicesV2List ctx,
        Event.logFatalf "Error getting devices, %v" [Arg.err err]], 1⟩
    | Except.ok devices =>
      let t2 := t1 ++ [Event.devicesV2List ctx] ++ deviceLog devices
      match w.thingsV2Show ctx thingID with
      | Except.error err =>
        ⟨t2 ++ [Event.thingsV2Show ctx thingID,
          Event.logFatalf "Error getting thing %s, %v" [Arg.str thingID, Arg.err err]], 1⟩
      | Except.ok thing =>
        let t3 := t2 ++ [Event.thingsV2Show ctx thingID]
        let from_ := fromFilter w
        match w.propertiesV2Timeseries ctx thingID pid from_ with
        | (data, some err) =>
          ⟨t3 ++ [Event.propertiesV2Timeseries ctx thingID pid from_,
            Event.logFatalf "Error getting prop, %v, %s" [Arg.series data, Arg.err err]], 1⟩
        | (data, none) =>
          let t4 := t3 ++ [Event.propertiesV2Timeseries ctx thingID pid from_,
            Event.logPrintf "Prop found, last humidity is : %v" [Arg.series data]]
          let meanValue := sumValues data
          let r := formTOPala w thing.Id sensorID
            (F64.div meanValue (F64.ofInt data.length)) w.nowSubmit
          ⟨t4 ++ r.trace, r.exit⟩

/-! ## http.Client -/

/-- A request as it goes on the wire: method, URL and the form fields of its
body (none for a request without body). -/
structure WireRequest where
  method : String
  url : String
  body : List (String × String)
  deriving DecidableEq, Repr

/-- A reply of the target to one request on the wire: status line, status code
and the `Location` header, already resolved against the request URL (the empty
string when the header is absent). -/
structure Reply where
  Status : String
  StatusCode : Nat
  Location : String
  deriving DecidableEq, Repr

namespace Client

/-- The function `redirectBehavior` of `net/http` for a request whose body can
be read again (`http.NewRequest` sets `GetBody` for a `*bytes.Buffer`): for a
redirect status, the method of the next request and whether the body is sent
again; `none` for every other status. -/
def redirectBehavior (reqMethod : String) (statusCode : Nat) : Option (String × Bool) :=
  if statusCode = 301 ∨ statusCode = 302 ∨ statusCode = 303 then
    some (if reqMethod ≠ "GET" ∧ reqMethod ≠ "HEAD" then "GET" else reqMethod, false)
  else if statusCode = 307 ∨ statusCode = 308 then some (reqMethod, true)
  else none

/-- The loop of `(*http.Client).do` for the zero-value client, whose redirect
policy stops after 10 requests: the requests sent, in order, and the result
of `Do`.  A redirect reply without `Location` is returned as it is. -/
def loop (roundTrip : WireRequest → Except String Reply) (body : List (String × String)) :
    Nat → WireRequest → List WireRequest → List WireRequest × Except String Response
  | 0, _, sent => (sent, Except.error "stopped after 10 redirects")
  | fuel + 1, req, sent =>
    match roundTrip req with
    | Except.error err => (sent ++ [req], Except.error err)
    | Except.ok reply =>
      match redirectBehavior req.method reply.StatusCode with
      | none => (sent ++ [req], Except.ok ⟨reply.Status, reply.StatusCode⟩)
      | some (redirectMethod, includeBody) =>
        if reply.Location = "" then (sent ++ [req], Except.ok ⟨reply.Status, reply.StatusCode⟩)
        else if 10 ≤ (sent ++ [req]).length then
          (sent ++ [req], Except.error "stopped after 10 redirects")
        else
          loop roundTrip body fuel
            ⟨redirectMethod, reply.Location, if includeBody then body else []⟩ (sent ++ [req])

/-- The call `client.Do(req)` on the zero-value `http.Client` over a transport
`roundTrip`: the requests sent on the wire and the result. -/
def Do (roundTrip : WireRequest → Except String Reply) (req : Request) :
    List WireRequest × Except String Response :=
  loop roundTrip req.body 10 ⟨req.method, req.url, req.body⟩ []

end Client

/-! ## Observations on a run -/

/-- The steps of the pipeline that reach outside the process. -/
inductive Step where
  | token
  | devices
  | thing
  | series
  | forward
  | post
  deriving DecidableEq, Repr

/-- The pipeline step an event starts, if it starts one. -/
def Event.step : Event → Option Step
  | Event.token _ => some Step.token
  | Event.devicesV2List _ => some Step.devices
  | Event.thingsV2Show _ _ => some Step.thing
  | Event.propertiesV2Timeseries _ _ _ _ => some Step.series
  | Event.formTOPala _ _ _ _ => some Step.forward
  | Event.clientDo _ => some Step.post
  | _ => none

/-- The pipeline steps of a trace, in program order. -/
def steps (trace : List Event) : List Step := trace.filterMap Event.step

/-- The aggregates passed to `formTOPala` in a trace, one per call. -/
def aggregates (trace : List Event) : List F64 :=
  trace.filterMap fun
    | Event.formTOPala _ _ value _ => some value
    | _ => none

/-- The (name, value) pairs passed to `WriteField` in a trace. -/
def fieldsWritten (trace : List Event) : List (String × String) :=
  trace.filterMap fun
    | Event.writeField key value => some (key, value)
    | _ => none

/-- The requests handed to `client.Do` in a trace. -/
def requestsSent (trace : List Event) : List Request :=
  trace.filterMap fun
    | Event.clientDo req => some req
    | _ => none

/-- Truncation of a rational number toward zero. -/
def truncToZero (x : ℚ) : Int := if 0 ≤ x then ⌊x⌋ else ⌈x⌉

/-- The requests that reach the target in a run whose `client.Do` is the
zero-value client over `roundTrip`. -/
def wireRequests (roundTrip : WireRequest → Except String Reply) (trace : List Event) :
    List WireRequest :=
  ((requestsSent trace).map fun req => (Client.Do roundTrip req).1).flatten

/-! ## Sample worlds -/

/-- The `float64` nearest to the decimal `n / 10 ^ k`, as a Go literal denotes it. -/
def decimal (n : Int) (k : Nat) : F64 := F64.div (F64.ofInt n) (F64.ofInt (10 ^ k))

/-- A world in which every step succeeds: two samples, a map visited in
reverse source order, UTC as local zone, and a target answering 404. -/
def demoWorld : World where
  getenv := fun k =>
    if k = "thingID" then "T1" else if k = "sensorID" then "S1"
    else if k = "postUrl" then "http://pala.example/api" else k
  token := fun _ => Except.ok ⟨"tok", ⟨1700003600, 0⟩⟩
  devicesV2List := fun _ => Except.ok []
  thingsV2Show := fun _ id => Except.ok ⟨id⟩
  propertiesV2Timeseries := fun _ _ _ _ =>
    ([⟨⟨1699999000, 0⟩, decimal 213 1⟩, ⟨⟨1699999500, 0⟩, decimal 2139 2⟩], none)
  nowQuery := ⟨1700000000, 0⟩
  nowSubmit := ⟨1700000000, 7⟩
  zoneOffset := fun _ => 0
  floatToInt := fun _ => -9223372036854775808
  mapRange := fun l => ⟨l.reverse, List.reverse_perm l⟩
  writeField := fun _ _ _ => none
  writerClose := fun _ => none
  boundary := "b"
  newRequest := fun _ _ => none
  clientDo := fun _ => Except.ok ⟨"404 Not Found", 404⟩

/-- The world `demoWorld` with a time-series fetch that succeeds with no sample. -/
def emptySeriesWorld : World :=
  { demoWorld with propertiesV2Timeseries := fun _ _ _ _ => ([], none) }

/-- The world `demoWorld` with a token endpoint that refuses the exchange. -/
def tokenFailWorld : World :=
  { demoWorld with token := fun _ => Except.error "401 Unauthorized" }

/-- The world `demoWorld` with a failing device list call. -/
def devicesFailWorld : World :=
  { demoWorld with devicesV2List := fun _ => Except.error "500 Internal Server Error" }

/-- The world `demoWorld` with a failing thing fetch. -/
def thingFailWorld : World :=
  { demoWorld with thingsV2Show := fun _ _ => Except.error "404 Not Found" }

/-- The world `demoWorld` with a failing time-series fetch. -/
def seriesFailWorld : World :=
  { demoWorld with propertiesV2Timeseries := fun _ _ _ _ => ([], some "503 Service Unavailable") }

/-- The world `demoWorld` at 2024-01-01 12:00:00 local time in a zone one hour
east of UTC (the instant 2024-01-01T11:00:00Z). -/
def cetWorld : World :=
  { demoWorld with nowQuery := ⟨1704106800, 0⟩, zoneOffset := fun _ => 3600 }

/-- A target that answers every request with 404 and no `Location`. -/
def notFoundTransport : WireRequest → Except String Reply :=
  fun _ => Except.ok ⟨"404 Not Found", 404, ""⟩

/-- A target that has moved: it answers a request to the configured URL with
307 and the new location, and a request to the new location with 200. -/
def movedTransport : WireRequest → Except String Reply :=
  fun req =>
    if req.url = "http://pala.example/api" then
      Except.ok ⟨"307 Temporary Redirect", 307, "http://pala.example/v2/api"⟩
    else Except.ok ⟨"200 OK", 200, ""⟩

/-- The world `demoWorld` with the zero-value client over `movedTransport`. -/
def movedWorld : World :=
  { demoWorld with clientDo := fun req => (Client.Do movedTransport req).2 }

/-! ## The events of the forwarder -/

/-- The loop over the form fields performs only `WriteField` calls and, on a
failure, one formatted print: an observation blind to both sees nothing. -/
theorem filterMap_writeFields {α : Type} (f : Event → Option α)
    (hw : ∀ k v, f (Event.writeField k v) = none)
    (hp : ∀ s a, f (Event.printf s a) = none)
    (w : World) (l written : List (String × String)) :
    (writeFields w written l).1.filterMap f = [] := by
  induction l generalizing written with
  | nil => simp [writeFields]
  | cons kv rest ih =>
    obtain ⟨k, v⟩ := kv
    simp only [writeFields]
    split
    · simp [hw, hp]
    · simp [hw, ih]

/-- A run of `formTOPala` starts the forward step and at most one POST. -/
theorem steps_formTOPala (w : World) (t p : String) (v : F64) (ts : Time) :
    steps (formTOPala w t p v ts).trace = [Step.forward] ∨
      steps (formTOPala w t p v ts).trace = [Step.forward, Step.post] := by
  have h := filterMap_writeFields Event.step (fun _ _ => rfl) (fun _ _ => rfl) w
    (w.mapRange (formFields w t p v ts.Unix)).val []
  simp only [formTOPala, steps]
  split
  · rename_i evs heq
    rw [heq] at h
    simp only [] at h
    simp [List.filterMap_append, h, Event.step]
  · rename_i evs body heq
    rw [heq] at h
    simp only [] at h
    split
    · simp [List.filterMap_append, h, Event.step]
    · split
      · simp [List.filterMap_append, h, Event.step]
      · split <;> simp [List.filterMap_append, h, Event.step]

/-- A run of `formTOPala` records its own call, once, with the aggregate it was given. -/
theorem aggregates_formTOPala (w : World) (t p : String) (v : F64) (ts : Time) :
    aggregates (formTOPala w t p v ts).trace = [v] := by
  have h := filterMap_writeFields
    (fun | Event.formTOPala _ _ value _ => some value | _ => none)
    (fun _ _ => rfl) (fun _ _ => rfl) w
    (w.mapRange (formFields w t p v ts.Unix)).val []
  simp only [formTOPala, aggregates]
  split
  · rename_i evs heq
    rw [heq] at h
    simp only [] at h
    simp [List.filterMap_append, h]
  · rename_i evs body heq
    rw [heq] at h
    simp only [] at h
    split
    · simp [List.filterMap_append, h]
    · split
      · simp [List.filterMap_append, h]
      · split <;> simp [List.filterMap_append, h]

/-! ## The aggregate -/

/-- C9: when the time-series fetch succeeds with no sample, nothing guards
the division: the aggregate is `0 / 0`, which is NaN; the run does not end
there but goes on into `formTOPala`, called exactly once with that NaN, and
the run ends as that call ends. -/
theorem empty_series_divides_zero_by_zero (w : World) (tok : Token) (devices : List Device)
    (thing : Thing)
    (htok : w.token (config w) = Except.ok tok)
    (hdev : w.devicesV2List tok.AccessToken = Except.ok devices)
    (hthing : w.thingsV2Show tok.AccessToken (w.getenv "thingID") = Except.ok thing)
    (hdata : w.propertiesV2Timeseries tok.AccessToken (w.getenv "thingID") (w.getenv "pid")
      (fromFilter w) = ([], none)) :
    F64.div F64.zero (F64.ofInt 0) = F64.nan ∧
    aggregates (main w).trace = [F64.nan] ∧
    (∃ before, (main w).trace =
      before ++ (formTOPala w thing.Id (w.getenv "sensorID") F64.nan w.nowSubmit).trace) ∧
    (main w).exit = (formTOPala w thing.Id (w.getenv "sensorID") F64.nan w.nowSubmit).exit := by
  have hnan : F64.div F64.zero (F64.ofInt 0) = F64.nan := by decide
  have hagg := aggregates_formTOPala w thing.Id (w.getenv "sensorID") F64.nan w.nowSubmit
  have hmean : F64.div (sumValues []) (F64.ofInt (([] : List Sample).length : Int)) = F64.nan := by
    decide
  refine ⟨hnan, ?_, ?_, ?_⟩
  · simp only [main, htok, hdev, hthing, hdata, hmean]
    simp only [aggregates] at hagg ⊢
    rw [List.filterMap_append, hagg]
    simp [deviceLog]
    split <;> simp
  · simp only [main, htok, hdev, hthing, hdata, hmean]
    exact ⟨_, rfl⟩
  · simp only [main, htok, hdev, hthing, hdata, hmean]

theorem empty_series_divides_zero_by_zero_witness :
    aggregates (main emptySeriesWorld).trace = [F64.nan] ∧ (main emptySeriesWorld).exit = 0 :=
  ⟨(empty_series_divides_zero_by_zero emptySeriesWorld ⟨"tok", ⟨1700003600, 0⟩⟩ [] ⟨"T1"⟩
      rfl rfl rfl rfl).2.1,
    by decide⟩

/-! ## The pipeline -/

/-- Logging the device list starts no pipeline step. -/
theorem steps_deviceLog (devices : List Device) : steps (deviceLog devices) = [] := by
  simp only [steps, deviceLog]
  split <;> simp [Event.step]

/-- C4: the steps run in the order token exchange, device list, thing fetch,
time-series fetch, forward, and the first failing step ends the run with
exit code 1: after a failed token exchange no device, thing or property call
is made; after a failed device list, thing fetch or time-series fetch no
later step is made and `formTOPala` is not called (so no POST is sent); when
the four succeed, `formTOPala` is called next. -/
theorem first_failure_halts (w : World) :
    (∀ err, w.token (config w) = Except.error err →
      steps (main w).trace = [Step.token] ∧ (main w).exit = 1) ∧
    (∀ tok, w.token (config w) = Except.ok tok →
      (∀ err, w.devicesV2List tok.AccessToken = Except.error err →
        steps (main w).trace = [Step.token, Step.devices] ∧ (main w).exit = 1) ∧
      (∀ devices, w.devicesV2List tok.AccessToken = Except.ok devices →
        (∀ err, w.thingsV2Show tok.AccessToken (w.getenv "thingID") = Except.error err →
          steps (main w).trace = [Step.token, Step.devices, Step.thing] ∧ (main w).exit = 1) ∧
        (∀ thing, w.thingsV2Show tok.AccessToken (w.getenv "thingID") = Except.ok thing →
          (∀ data err, w.propertiesV2Timeseries tok.AccessToken (w.getenv "thingID")
              (w.getenv "pid") (fromFilter w) = (data, some err) →
            steps (main w).trace = [Step.token, Step.devices, Step.thing, Step.series] ∧
              (main w).exit = 1) ∧
          (∀ data, w.propertiesV2Timeseries tok.AccessToken (w.getenv "thingID")
              (w.getenv "pid") (fromFilter w) = (data, none) →
            steps (main w).trace =
                [Step.token, Step.devices, Step.thing, Step.series, Step.forward] ∨
              steps (main w).trace =
                [Step.token, Step.devices, Step.thing, Step.series, Step.forward,
                  Step.post])))) := by
  refine ⟨?_, ?_⟩
  · intro err htok
    simp [main, htok, steps, Event.step]
  · intro tok htok
    refine ⟨?_, ?_⟩
    · intro err hdev
      simp [main, htok, hdev, steps, Event.step]
    · intro devices hdev
      have hlog := steps_deviceLog devices
      simp only [steps] at hlog
      refine ⟨?_, ?_⟩
      · intro err hthing
        simp [main, htok, hdev, hthing, steps, Event.step, List.filterMap_append, hlog]
      · intro thing hthing
        refine ⟨?_, ?_⟩
        · intro data err hdata
          simp [main, htok, hdev, hthing, hdata, steps, Event.step, List.filterMap_append, hlog]
        · intro data hdata
          have hf := steps_formTOPala w thing.Id (w.getenv "sensorID")
            (F64.div (sumValues data) (F64.ofInt data.length)) w.nowSubmit
          simp only [steps] at hf
          rcases hf with hf | hf <;>
            simp [main, htok, hdev, hthing, hdata, steps, Event.step, List.filterMap_append,
              hlog, hf]

theorem first_failure_halts_witness :
    (steps (main tokenFailWorld).trace = [Step.token] ∧ (main tokenFailWorld).exit = 1) ∧
    (steps (main devicesFailWorld).trace = [Step.token, Step.devices] ∧
      (main devicesFailWorld).exit = 1) ∧
    (steps (main thingFailWorld).trace = [Step.token, Step.devices, Step.thing] ∧
      (main thingFailWorld).exit = 1) ∧
    (steps (main seriesFailWorld).trace =
        [Step.token, Step.devices, Step.thing, Step.series] ∧
      (main seriesFailWorld).exit = 1) :=
  ⟨(first_failure_halts tokenFailWorld).1 "401 Unauthorized" rfl,
    ((first_failure_halts devicesFailWorld).2 ⟨"tok", ⟨1700003600, 0⟩⟩ rfl).1
      "500 Internal Server Error" rfl,
    (((first_failure_halts thingFailWorld).2 ⟨"tok", ⟨1700003600, 0⟩⟩ rfl).2 [] rfl).1
      "404 Not Found" rfl,
    ((((first_failure_halts seriesFailWorld).2 ⟨"tok", ⟨1700003600, 0⟩⟩ rfl).2 [] rfl).2
      ⟨"T1"⟩ rfl).1 [] "503 Service Unavailable" rfl⟩

/-! ## The device list -/

/-- The loop over the form fields reads nothing of the world but `WriteField`. -/
theorem writeFields_congr (w w' : World) (h : w'.writeField = w.writeField)
    (l written : List (String × String)) :
    writeFields w' written l = writeFields w written l := by
  induction l generalizing written with
  | nil => rfl
  | cons kv rest ih =>
    obtain ⟨k, v⟩ := kv
    simp only [writeFields, h, ih]

/-- The forwarder does not read the device list. -/
theorem formTOPala_devicesV2List (w : World) (f : String → Except String (List Device))
    (t p : String) (v : F64) (ts : Time) :
    formTOPala { w with devicesV2List := f } t p v ts = formTOPala w t p v ts := by
  have h := writeFields_congr w { w with devicesV2List := f } rfl
  simp only [formTOPala, formFields, h]

/-- C5: after a successful token exchange, a device list call that succeeds
with zero devices does not end the run: the notice `No device found` is
logged and the run goes on with the thing fetch.  All that follows is what
follows any other device list: there is one continuation `rest`, starting
with the thing fetch, such that for every list `devices` the run of the world
whose device list call returns `devices` is the token exchange, the device
list call, the log lines of `devices`, then `rest`, with the exit code of
`rest`. -/
theorem empty_device_list_continues (w : World) (tok : Token)
    (htok : w.token (config w) = Except.ok tok)
    (hdev : w.devicesV2List tok.AccessToken = Except.ok []) :
    ∃ rest : Run,
      rest.trace.head? = some (Event.thingsV2Show tok.AccessToken (w.getenv "thingID")) ∧
      main w = ⟨[Event.token (config w),
          Event.logPrintf "Got an access token, will expire on %s" [Arg.time tok.Expiry],
          Event.devicesV2List tok.AccessToken,
          Event.logPrintf "No device found" []] ++ rest.trace, rest.exit⟩ ∧
      ∀ devices : List Device,
        main { w with devicesV2List := fun _ => Except.ok devices } =
          ⟨[Event.token (config w),
            Event.logPrintf "Got an access token, will expire on %s" [Arg.time tok.Expiry],
            Event.devicesV2List tok.AccessToken] ++ deviceLog devices ++ rest.trace,
            rest.exit⟩ := by
  have hcfg : ∀ devices : List Device,
      config { w with devicesV2List := fun _ => Except.ok devices } = config w := fun _ => rfl
  have hfrom : ∀ devices : List Device,
      fromFilter { w with devicesV2List := fun _ => Except.ok devices } = fromFilter w :=
    fun _ => rfl
  cases hthing : w.thingsV2Show tok.AccessToken (w.getenv "thingID") with
  | error err =>
    refine ⟨⟨[Event.thingsV2Show tok.AccessToken (w.getenv "thingID"),
      Event.logFatalf "Error getting thing %s, %v" [Arg.str (w.getenv "thingID"), Arg.err err]],
      1⟩, rfl, ?_, ?_⟩
    · simp [main, htok, hdev, hthing, deviceLog]
    · intro devices
      simp [main, hcfg, htok, hthing]
  | ok thing =>
    rcases hdata : w.propertiesV2Timeseries tok.AccessToken (w.getenv "thingID")
      (w.getenv "pid") (fromFilter w) with ⟨data, _ | err⟩
    · refine ⟨⟨[Event.thingsV2Show tok.AccessToken (w.getenv "thingID"),
        Event.propertiesV2Timeseries tok.AccessToken (w.getenv "thingID") (w.getenv "pid")
          (fromFilter w),
        Event.logPrintf "Prop found, last humidity is : %v" [Arg.series data]] ++
        (formTOPala w thing.Id (w.getenv "sensorID")
          (F64.div (sumValues data) (F64.ofInt data.length)) w.nowSubmit).trace,
        (formTOPala w thing.Id (w.getenv "sensorID")
          (F64.div (sumValues data) (F64.ofInt data.length)) w.nowSubmit).exit⟩, rfl, ?_, ?_⟩
      · simp [main, htok, hdev, hthing, hdata, deviceLog]
      · intro devices
        simp only [main, hcfg, hfrom, htok, hthing, hdata, formTOPala_devicesV2List]
        simp
    · refine ⟨⟨[Event.thingsV2Show tok.AccessToken (w.getenv "thingID"),
        Event.propertiesV2Timeseries tok.AccessToken (w.getenv "thingID") (w.getenv "pid")
          (fromFilter w),
        Event.logFatalf "Error getting prop, %v, %s" [Arg.series data, Arg.err err]], 1⟩,
        rfl, ?_, ?_⟩
      · simp [main, htok, hdev, hthing, hdata, deviceLog]
      · intro devices
        simp [main, hcfg, hfrom, htok, hthing, hdata]

theorem empty_device_list_continues_witness :
    ∃ rest : Run,
      rest.trace.head? = some (Event.thingsV2Show "tok" "T1") ∧
      main demoWorld = ⟨[Event.token (config demoWorld),
          Event.logPrintf "Got an access token, will expire on %s"
            [Arg.time ⟨1700003600, 0⟩],
          Event.devicesV2List "tok",
          Event.logPrintf "No device found" []] ++ rest.trace, rest.exit⟩ ∧
      ∀ devices : List Device,
        main { demoWorld with devicesV2List := fun _ => Except.ok devices } =
          ⟨[Event.token (config demoWorld),
            Event.logPrintf "Got an access token, will expire on %s"
              [Arg.time ⟨1700003600, 0⟩],
            Event.devicesV2List "tok"] ++ deviceLog devices ++ rest.trace, rest.exit⟩ :=
  empty_device_list_continues demoWorld ⟨"tok", ⟨1700003600, 0⟩⟩ rfl rfl

/-! ## The loop over the form fields -/

/-- A loop that runs to its end has written every entry, one `WriteField` event
each, and none of its `WriteField` calls failed. -/
theorem writeFields_some (w : World) (l written : List (String × String))
    (evs : List Event) (body : List (String × String))
    (h : writeFields w written l = (evs, some body)) :
    body = written ++ l ∧ evs = l.map (fun kv => Event.writeField kv.1 kv.2) ∧
      ∀ pre k v post, l = pre ++ (k, v) :: post → w.writeField (written ++ pre) k v = none := by
  induction l generalizing written evs with
  | nil =>
    simp only [writeFields, Prod.mk.injEq, Option.some.injEq] at h
    refine ⟨by simp [h.2], by simp [h.1], ?_⟩
    intro pre k v post hl
    simp at hl
  | cons kv rest ih =>
    obtain ⟨k, v⟩ := kv
    simp only [writeFields] at h
    split at h
    · simp at h
    · rename_i hw
      simp only [Prod.mk.injEq] at h
      obtain ⟨h1, h2⟩ := h
      have hr := ih (written ++ [(k, v)]) (writeFields w (written ++ [(k, v)]) rest).1 (by
        rw [← h2])
      refine ⟨by simp [hr.1], ?_, ?_⟩
      · rw [← h1, hr.2.1]; simp
      · intro pre k' v' post hl
        cases pre with
        | nil =>
          simp only [List.nil_append, List.cons.injEq, Prod.mk.injEq] at hl
          obtain ⟨⟨rfl, rfl⟩, _⟩ := hl
          simpa using hw
        | cons a pre' =>
          simp only [List.cons_append, List.cons.injEq] at hl
          obtain ⟨rfl, hl'⟩ := hl
          have := hr.2.2 pre' k' v' post hl'
          simpa using this

/-- When no `WriteField` call of the loop fails, the loop writes every entry. -/
theorem writeFields_of_no_error (w : World) (l written : List (String × String))
    (h : ∀ pre k v post, l = pre ++ (k, v) :: post → w.writeField (written ++ pre) k v = none) :
    writeFields w written l =
      (l.map (fun kv => Event.writeField kv.1 kv.2), some (written ++ l)) := by
  induction l generalizing written with
  | nil => simp [writeFields]
  | cons kv rest ih =>
    obtain ⟨k, v⟩ := kv
    have h0 : w.writeField written k v = none := by
      simpa using h [] k v rest rfl
    have hr := ih (written ++ [(k, v)]) (by
      intro pre k' v' post hl
      have := h ((k, v) :: pre) k' v' post (by simp [hl])
      simpa using this)
    simp [writeFields, h0, hr]

/-! ## The response -/

/-- Whenever `formTOPala` hands a request to `client.Do` and `Do` returns a
response, whatever its status, that call is the only one of the run, the line
`Response status:` with the response's status is printed right after it, and
the run ends with exit code 0; with any other response in place of this one
the run is the same up to the printed status. -/
theorem formTOPala_of_response (w : World) (t p : String) (v : F64) (ts : Time)
    (req : Request) (resp : Response)
    (hsent : req ∈ requestsSent (formTOPala w t p v ts).trace)
    (hresp : w.clientDo req = Except.ok resp) :
    requestsSent (formTOPala w t p v ts).trace = [req] ∧
    ∃ before, requestsSent before = [] ∧
      formTOPala w t p v ts =
        ⟨before ++ [Event.clientDo req,
          Event.println [Arg.str "Response status:", Arg.str resp.Status],
          Event.bodyClose], 0⟩ ∧
      ∀ resp' : Response,
        formTOPala { w with clientDo := fun q => if q = req then Except.ok resp' else w.clientDo q }
            t p v ts =
          ⟨before ++ [Event.clientDo req,
            Event.println [Arg.str "Response status:", Arg.str resp'.Status],
            Event.bodyClose], 0⟩ := by
  have hcongr : ∀ f : Request → Except String Response,
      writeFields { w with clientDo := f } = writeFields w := by
    intro f; funext written l
    exact writeFields_congr w { w with clientDo := f } rfl l written
  have h := filterMap_writeFields
    (fun | Event.clientDo req => some req | _ => none)
    (fun _ _ => rfl) (fun _ _ => rfl) w
    (w.mapRange (formFields w t p v ts.Unix)).val []
  simp only [formTOPala, requestsSent, formFields, hcongr] at hsent h ⊢
  split at hsent
  · rename_i evs heq
    rw [heq] at h
    simp only [] at h
    simp [List.filterMap_append, h] at hsent
  · rename_i evs body heq
    rw [heq] at h
    simp only [] at h
    split at hsent
    · simp [List.filterMap_append, h] at hsent
    · split at hsent
      · simp [List.filterMap_append, h] at hsent
      · rename_i _ hclose _ hnew
        split at hsent
        · rename_i err herr
          simp [List.filterMap_append, h] at hsent
          rw [← hsent] at herr
          rw [hresp] at herr
          simp at herr
        · rename_i resp0 hresp0
          simp [List.filterMap_append, h] at hsent
          subst hsent
          simp only [hclose, hnew, hresp0]
          refine ⟨by simp [List.filterMap_append, h], ?_⟩
          refine ⟨Event.formTOPala t p v ts :: evs ++
            [Event.writerClose, Event.newRequest "POST" (w.getenv "postUrl")], ?_, ?_, ?_⟩
          · simp [List.filterMap_append, h]
          · rw [hresp] at hresp0
            simp only [Except.ok.injEq] at hresp0
            simp [hresp0]
          · intro resp'
            simp

/-- A status that is no redirect status makes `redirectBehavior` stop. -/
theorem Client.redirectBehavior_eq_none (reqMethod : String) (statusCode : Nat)
    (h : statusCode ∉ [301, 302, 303, 307, 308]) :
    Client.redirectBehavior reqMethod statusCode = none := by
  simp only [List.mem_cons, List.mem_singleton, List.not_mem_nil, or_false, not_or] at h
  obtain ⟨h1, h2, h3, h4, h5⟩ := h
  simp [Client.redirectBehavior, h1, h2, h3, h4, h5]

/-- A reply that is not a redirect with a `Location` ends `client.Do` after
one request, with that reply as response. -/
theorem Client.Do_of_final (roundTrip : WireRequest → Except String Reply) (req : Request)
    (reply : Reply) (hreply : roundTrip ⟨req.method, req.url, req.body⟩ = Except.ok reply)
    (hfinal : reply.StatusCode ∉ [301, 302, 303, 307, 308] ∨ reply.Location = "") :
    Client.Do roundTrip req =
      ([⟨req.method, req.url, req.body⟩], Except.ok ⟨reply.Status, reply.StatusCode⟩) := by
  simp only [Client.Do, Client.loop, hreply, List.nil_append]
  rcases hfinal with h | h
  · rw [Client.redirectBehavior_eq_none _ _ h]
  · split
    · rfl
    · simp [h]

/-- C7, for every reply that the client does not follow: the program calls
`client.Do` once and never retries.  Whenever the target's reply to the request of `formTOPala` is not a redirect
that the client follows (status 301, 302, 303, 307 or 308 with a `Location`),
whatever its status otherwise, exactly one request reaches the target, the
line `Response status:` with the reply's status is printed right after the
call, and the run ends with exit code 0; with any other response returned by
`Do` the run is the same up to the printed status. -/
theorem final_response_logged_no_retry (w : World)
    (roundTrip : WireRequest → Except String Reply) (t p : String) (v : F64) (ts : Time)
    (req : Request) (reply : Reply)
    (hclient : ∀ q, w.clientDo q = (Client.Do roundTrip q).2)
    (hsent : req ∈ requestsSent (formTOPala w t p v ts).trace)
    (hreply : roundTrip ⟨req.method, req.url, req.body⟩ = Except.ok reply)
    (hfinal : reply.StatusCode ∉ [301, 302, 303, 307, 308] ∨ reply.Location = "") :
    requestsSent (formTOPala w t p v ts).trace = [req] ∧
    wireRequests roundTrip (formTOPala w t p v ts).trace = [⟨req.method, req.url, req.body⟩] ∧
    ∃ before, requestsSent before = [] ∧
      formTOPala w t p v ts =
        ⟨before ++ [Event.clientDo req,
          Event.println [Arg.str "Response status:", Arg.str reply.Status],
          Event.bodyClose], 0⟩ ∧
      ∀ resp' : Response,
        formTOPala { w with clientDo := fun q => if q = req then Except.ok resp' else w.clientDo q }
            t p v ts =
          ⟨before ++ [Event.clientDo req,
            Event.println [Arg.str "Response status:", Arg.str resp'.Status],
            Event.bodyClose], 0⟩ := by
  have hdo := Client.Do_of_final roundTrip req reply hreply hfinal
  have hresp : w.clientDo req = Except.ok ⟨reply.Status, reply.StatusCode⟩ := by
    rw [hclient, hdo]
  obtain ⟨hone, before, hb, hrun, hany⟩ :=
    formTOPala_of_response w t p v ts req ⟨reply.Status, reply.StatusCode⟩ hsent hresp
  refine ⟨hone, ?_, before, hb, hrun, hany⟩
  simp [wireRequests, hone, hdo]

set_option maxRecDepth 100000 in
theorem final_response_logged_no_retry_witness :
    requestsSent (formTOPala demoWorld "T1" "S1" (decimal 213 1) ⟨1700000000, 0⟩).trace =
      [⟨"POST", "http://pala.example/api", "multipart/form-data; boundary=b",
        [("timestamp", "1700000000"), ("type", "2"), ("value", "213"), ("iddevice", "S1"),
          ("apikey", "T1")]⟩] ∧
    wireRequests notFoundTransport
        (formTOPala demoWorld "T1" "S1" (decimal 213 1) ⟨1700000000, 0⟩).trace =
      [⟨"POST", "http://pala.example/api",
        [("timestamp", "1700000000"), ("type", "2"), ("value", "213"), ("iddevice", "S1"),
          ("apikey", "T1")]⟩] :=
  ⟨(final_response_logged_no_retry demoWorld notFoundTransport "T1" "S1" (decimal 213 1)
      ⟨1700000000, 0⟩
      ⟨"POST", "http://pala.example/api", "multipart/form-data; boundary=b",
        [("timestamp", "1700000000"), ("type", "2"), ("value", "213"), ("iddevice", "S1"),
          ("apikey", "T1")]⟩ ⟨"404 Not Found", 404, ""⟩ (fun _ => rfl) (by decide) rfl
      (Or.inl (by decide))).1,
    (final_response_logged_no_retry demoWorld notFoundTransport "T1" "S1" (decimal 213 1)
      ⟨1700000000, 0⟩
      ⟨"POST", "http://pala.example/api", "multipart/form-data; boundary=b",
        [("timestamp", "1700000000"), ("type", "2"), ("value", "213"), ("iddevice", "S1"),
          ("apikey", "T1")]⟩ ⟨"404 Not Found", 404, ""⟩ (fun _ => rfl) (by decide) rfl
      (Or.inl (by decide))).2.1⟩

set_option maxRecDepth 100000 in
/-- C7 does not hold for a redirect reply: a target that answers the POST with
307 and a `Location` receives two POST requests in one run, its 307 status
line is never printed, and the status printed is that of the second reply. -/
theorem redirect_reply_sends_second_request :
    movedTransport ⟨"POST", "http://pala.example/api",
        [("timestamp", "1700000000"), ("type", "2"), ("value", "213"), ("iddevice", "S1"),
          ("apikey", "T1")]⟩ =
      Except.ok ⟨"307 Temporary Redirect", 307, "http://pala.example/v2/api"⟩ ∧
    wireRequests movedTransport
        (formTOPala movedWorld "T1" "S1" (decimal 213 1) ⟨1700000000, 0⟩).trace =
      [⟨"POST", "http://pala.example/api",
          [("timestamp", "1700000000"), ("type", "2"), ("value", "213"), ("iddevice", "S1"),
            ("apikey", "T1")]⟩,
        ⟨"POST", "http://pala.example/v2/api",
          [("timestamp", "1700000000"), ("type", "2"), ("value", "213"), ("iddevice", "S1"),
            ("apikey", "T1")]⟩] ∧
    Event.println [Arg.str "Response status:", Arg.str "307 Temporary Redirect"] ∉
      (formTOPala movedWorld "T1" "S1" (decimal 213 1) ⟨1700000000, 0⟩).trace ∧
    Event.println [Arg.str "Response status:", Arg.str "200 OK"] ∈
      (formTOPala movedWorld "T1" "S1" (decimal 213 1) ⟨1700000000, 0⟩).trace := by
  refine ⟨rfl, by decide, by decide, by decide⟩

/-! ## The submitted form -/

/-- The requests of a run of `formTOPala`: none, or one whose body holds the
map entries in the order `range` visited them. -/
theorem requestsSent_formTOPala (w : World) (t p : String) (v : F64) (ts : Time)
    (req : Request) (hsent : req ∈ requestsSent (formTOPala w t p v ts).trace) :
    req.body = (w.mapRange (formFields w t p v ts.Unix)).val := by
  have h := filterMap_writeFields
    (fun | Event.clientDo req => some req | _ => none)
    (fun _ _ => rfl) (fun _ _ => rfl) w
    (w.mapRange (formFields w t p v ts.Unix)).val []
  simp only [formTOPala, requestsSent] at hsent h
  split at hsent
  · rename_i evs heq
    rw [heq] at h
    simp only [] at h
    simp [List.filterMap_append, h] at hsent
  · rename_i evs body heq
    have hbody := (writeFields_some w _ [] evs body heq).1
    rw [heq] at h
    simp only [] at h
    split at hsent
    · simp [List.filterMap_append, h] at hsent
    · split at hsent
      · simp [List.filterMap_append, h] at hsent
      · split at hsent <;>
          · simp [List.filterMap_append, h] at hsent
            subst hsent
            simpa using hbody

/-- The aggregate 21.3 times ten is exactly 213, whatever the platform. -/
theorem value_of_21_3 (other : F64 → Int) :
    sprintInt (F64.toInt other (F64.mul (decimal 213 1) (F64.ofInt 10))) = "213" := by
  have h : F64.mul (decimal 213 1) (F64.ofInt 10) = F64.fin false 7494271254921216 (-45) := by
    set_option maxRecDepth 100000 in decide
  rw [h]
  have h2 : F64.toInt other (F64.fin false 7494271254921216 (-45)) = 213 := by
    rfl
  rw [h2]
  decide

/-- C2: a form that `formTOPala` submits holds exactly the five fields
`apikey`, `iddevice`, `value`, `type` and `timestamp`, each once, in some
order: `apikey` is the thing ID, `iddevice` the sensor ID, `value` the decimal
text of `int(v*10)`, `type` the text `2` and `timestamp` the decimal text of
the Unix seconds.  For thing `T1`, sensor `S1`, aggregate 21.3 and second
1700000000 the fields are `T1`, `S1`, `213`, `2` and `1700000000`. -/
theorem submitted_form_has_five_fields (w : World) (t s : String) (v : F64) (ts : Time)
    (req : Request) (hsent : req ∈ requestsSent (formTOPala w t s v ts).trace) :
    req.body.Perm
      [("apikey", t), ("iddevice", s),
        ("value", sprintInt (F64.toInt w.floatToInt (F64.mul v (F64.ofInt 10)))),
        ("type", "2"), ("timestamp", sprintInt ts.Unix)] ∧
    (t = "T1" → s = "S1" → v = decimal 213 1 → ts.Unix = 1700000000 →
      req.body.Perm
        [("apikey", "T1"), ("iddevice", "S1"), ("value", "213"), ("type", "2"),
          ("timestamp", "1700000000")]) := by
  have hbody := requestsSent_formTOPala w t s v ts req hsent
  have hperm := (w.mapRange (formFields w t s v ts.Unix)).property
  rw [← hbody] at hperm
  refine ⟨hperm, ?_⟩
  intro ht hs hv hts
  rw [ht, hs, hv, hts] at hperm
  have h1 := value_of_21_3 w.floatToInt
  have h2 : sprintInt 1700000000 = "1700000000" := by decide
  simp only [formFields, h1, h2] at hperm
  exact hperm

set_option maxRecDepth 100000 in
theorem submitted_form_has_five_fields_witness :
    (⟨"POST", "http://pala.example/api", "multipart/form-data; boundary=b",
        [("timestamp", "1700000000"), ("type", "2"), ("value", "213"), ("iddevice", "S1"),
          ("apikey", "T1")]⟩ : Request) ∈
      requestsSent (formTOPala demoWorld "T1" "S1" (decimal 213 1) ⟨1700000000, 0⟩).trace ∧
    [("timestamp", "1700000000"), ("type", "2"), ("value", "213"), ("iddevice", "S1"),
        ("apikey", "T1")].Perm
      [("apikey", "T1"), ("iddevice", "S1"), ("value", "213"), ("type", "2"),
        ("timestamp", "1700000000")] :=
  ⟨by decide,
    (submitted_form_has_five_fields demoWorld "T1" "S1" (decimal 213 1) ⟨1700000000, 0⟩
      ⟨"POST", "http://pala.example/api", "multipart/form-data; boundary=b",
        [("timestamp", "1700000000"), ("type", "2"), ("value", "213"), ("iddevice", "S1"),
          ("apikey", "T1")]⟩ (by decide)).2 rfl rfl rfl rfl⟩

/-! ## The order of the form fields -/

/-- When no `WriteField` call fails, the fields passed to `WriteField` by a
run of `formTOPala` are the map entries in the order `range` visited them. -/
theorem fieldsWritten_formTOPala (w : World) (t p : String) (v : F64) (ts : Time)
    (hok : ∀ written key value, w.writeField written key value = none) :
    fieldsWritten (formTOPala w t p v ts).trace =
      (w.mapRange (formFields w t p v ts.Unix)).val := by
  have hw := writeFields_of_no_error w (w.mapRange (formFields w t p v ts.Unix)).val []
    (fun _ _ _ _ _ => hok _ _ _)
  have hmap : ∀ l : List (String × String),
      List.filterMap (fun | Event.writeField key value => some (key, value) | _ => none)
        (l.map (fun kv => Event.writeField kv.1 kv.2)) = l := by
    intro l
    induction l with
    | nil => rfl
    | cons a l ih => simp [ih]
  simp only [formTOPala, fieldsWritten, hw]
  split <;> [skip; split <;> [skip; split]] <;> simp [List.filterMap_append, hmap]

/-- C10: `range` may visit the entries of the map `formFields` in any order;
when no `WriteField` call fails, the fields written under one order are a
rearrangement of the fields written under any other: the same five
(name, value) pairs, and each of the five names once. -/
theorem field_order_independent (w : World) (t p : String) (v : F64) (ts : Time)
    (order : (l : List (String × String)) → { l' : List (String × String) // l'.Perm l })
    (hok : ∀ written key value, w.writeField written key value = none) :
    (fieldsWritten (formTOPala { w with mapRange := order } t p v ts).trace).Perm
      (fieldsWritten (formTOPala w t p v ts).trace) ∧
    (fieldsWritten (formTOPala { w with mapRange := order } t p v ts).trace).Perm
      (formFields w t p v ts.Unix) ∧
    ((fieldsWritten (formTOPala { w with mapRange := order } t p v ts).trace).map Prod.fst).Perm
      ["apikey", "iddevice", "value", "type", "timestamp"] := by
  have h1 := fieldsWritten_formTOPala w t p v ts hok
  have h2 := fieldsWritten_formTOPala { w with mapRange := order } t p v ts hok
  have hf : formFields { w with mapRange := order } t p v ts.Unix = formFields w t p v ts.Unix :=
    rfl
  simp only [hf] at h2
  have p1 := (w.mapRange (formFields w t p v ts.Unix)).property
  have p2 := (order (formFields w t p v ts.Unix)).property
  rw [h1, h2]
  refine ⟨p2.trans p1.symm, p2, ?_⟩
  have := p2.map Prod.fst
  simpa [formFields] using this

set_option maxRecDepth 100000 in
theorem field_order_independent_witness :
    fieldsWritten (formTOPala { demoWorld with mapRange := fun l => ⟨l, List.Perm.refl l⟩ }
        "T1" "S1" (decimal 213 1) ⟨1700000000, 0⟩).trace =
      [("apikey", "T1"), ("iddevice", "S1"), ("value", "213"), ("type", "2"),
        ("timestamp", "1700000000")] ∧
    fieldsWritten (formTOPala demoWorld "T1" "S1" (decimal 213 1) ⟨1700000000, 0⟩).trace =
      [("timestamp", "1700000000"), ("type", "2"), ("value", "213"), ("iddevice", "S1"),
        ("apikey", "T1")] ∧
    (fieldsWritten (formTOPala { demoWorld with mapRange := fun l => ⟨l, List.Perm.refl l⟩ }
        "T1" "S1" (decimal 213 1) ⟨1700000000, 0⟩).trace).Perm
      (fieldsWritten (formTOPala demoWorld "T1" "S1" (decimal 213 1) ⟨1700000000, 0⟩).trace) :=
  ⟨by decide, by decide,
    (field_order_independent demoWorld "T1" "S1" (decimal 213 1) ⟨1700000000, 0⟩
      (fun l => ⟨l, List.Perm.refl l⟩) (fun _ _ _ => rfl)).1⟩

/-! ## The exit code -/

/-- A run of `formTOPala` ends with exit code 0 exactly when every
`WriteField` call, `writer.Close`, `http.NewRequest` and `client.Do` succeed;
otherwise it ends with exit code 1. -/
theorem formTOPala_exit (w : World) (t p : String) (v : F64) (ts : Time) :
    ((formTOPala w t p v ts).exit = 0 ↔
      ∃ resp,
        (∀ pre key value post,
          (w.mapRange (formFields w t p v ts.Unix)).val = pre ++ (key, value) :: post →
          w.writeField pre key value = none) ∧
        w.writerClose (w.mapRange (formFields w t p v ts.Unix)).val = none ∧
        w.newRequest "POST" (w.getenv "postUrl") = none ∧
        w.clientDo ⟨"POST", w.getenv "postUrl", "multipart/form-data; boundary=" ++ w.boundary,
          (w.mapRange (formFields w t p v ts.Unix)).val⟩ = Except.ok resp) ∧
    ((formTOPala w t p v ts).exit = 0 ∨ (formTOPala w t p v ts).exit = 1) := by
  simp only [formTOPala]
  split
  · rename_i evs heq
    refine ⟨⟨by simp, ?_⟩, Or.inr rfl⟩
    rintro ⟨resp, hwr, -⟩
    have := writeFields_of_no_error w _ [] (by simpa using hwr)
    rw [this] at heq
    simp at heq
  · rename_i evs body heq
    obtain ⟨hbody, -, hwr⟩ := writeFields_some w _ [] evs body heq
    simp only [List.nil_append] at hbody hwr
    subst hbody
    split
    · rename_i err herr
      refine ⟨⟨by simp, ?_⟩, Or.inr rfl⟩
      rintro ⟨resp, -, hc, -⟩
      rw [hc] at herr; simp at herr
    · rename_i _ hclose
      split
      · rename_i err herr
        refine ⟨⟨by simp, ?_⟩, Or.inr rfl⟩
        rintro ⟨resp, -, -, hn, -⟩
        rw [hn] at herr; simp at herr
      · rename_i _ hnew
        split
        · rename_i err herr
          refine ⟨⟨by simp, ?_⟩, Or.inr rfl⟩
          rintro ⟨resp, -, -, -, hd⟩
          rw [hd] at herr; simp at herr
        · rename_i resp hresp
          exact ⟨⟨fun _ => ⟨resp, hwr, hclose, hnew, hresp⟩, fun _ => rfl⟩, Or.inl rfl⟩

/-- C8: the process exits with code 0 exactly when every step succeeds: the
token exchange, the device list, the thing fetch, the time-series fetch,
every `WriteField` call and `writer.Close` (multipart encoding),
`http.NewRequest` and `client.Do`; in every other run the exit code is 1. -/
theorem exit_zero_iff_all_steps_succeed (w : World) :
    ((main w).exit = 0 ↔
      ∃ tok devices thing data resp,
        w.token (config w) = Except.ok tok ∧
        w.devicesV2List tok.AccessToken = Except.ok devices ∧
        w.thingsV2Show tok.AccessToken (w.getenv "thingID") = Except.ok thing ∧
        w.propertiesV2Timeseries tok.AccessToken (w.getenv "thingID") (w.getenv "pid")
          (fromFilter w) = (data, none) ∧
        (∀ pre key value post,
          (w.mapRange (formFields w thing.Id (w.getenv "sensorID")
            (F64.div (sumValues data) (F64.ofInt data.length)) w.nowSubmit.Unix)).val =
              pre ++ (key, value) :: post →
          w.writeField pre key value = none) ∧
        w.writerClose (w.mapRange (formFields w thing.Id (w.getenv "sensorID")
          (F64.div (sumValues data) (F64.ofInt data.length)) w.nowSubmit.Unix)).val = none ∧
        w.newRequest "POST" (w.getenv "postUrl") = none ∧
        w.clientDo ⟨"POST", w.getenv "postUrl", "multipart/form-data; boundary=" ++ w.boundary,
          (w.mapRange (formFields w thing.Id (w.getenv "sensorID")
            (F64.div (sumValues data) (F64.ofInt data.length)) w.nowSubmit.Unix)).val⟩ =
          Except.ok resp) ∧
    ((main w).exit = 0 ∨ (main w).exit = 1) := by
  cases htok : w.token (config w) with
  | error err =>
    refine ⟨⟨by simp [main, htok], ?_⟩, Or.inr (by simp [main, htok])⟩
    rintro ⟨tok, _, _, _, _, h, -⟩
    simp at h
  | ok tok =>
    cases hdev : w.devicesV2List tok.AccessToken with
    | error err =>
      refine ⟨⟨by simp [main, htok, hdev], ?_⟩, Or.inr (by simp [main, htok, hdev])⟩
      rintro ⟨tok', _, _, _, _, h, h', -⟩
      simp only [Except.ok.injEq] at h
      subst h
      rw [hdev] at h'; simp at h'
    | ok devices =>
      cases hthing : w.thingsV2Show tok.AccessToken (w.getenv "thingID") with
      | error err =>
        refine ⟨⟨by simp [main, htok, hdev, hthing], ?_⟩,
          Or.inr (by simp [main, htok, hdev, hthing])⟩
        rintro ⟨tok', _, _, _, _, h, -, h', -⟩
        simp only [Except.ok.injEq] at h
        subst h
        rw [hthing] at h'; simp at h'
      | ok thing =>
        rcases hdata : w.propertiesV2Timeseries tok.AccessToken (w.getenv "thingID")
          (w.getenv "pid") (fromFilter w) with ⟨data, _ | err⟩
        · have hf := formTOPala_exit w thing.Id (w.getenv "sensorID")
            (F64.div (sumValues data) (F64.ofInt data.length)) w.nowSubmit
          have hmain : (main w).exit = (formTOPala w thing.Id (w.getenv "sensorID")
              (F64.div (sumValues data) (F64.ofInt data.length)) w.nowSubmit).exit := by
            simp only [main, htok, hdev, hthing, hdata]
          rw [hmain]
          refine ⟨⟨?_, ?_⟩, hf.2⟩
          · intro h0
            obtain ⟨resp, h1, h2, h3, h4⟩ := hf.1.1 h0
            exact ⟨tok, devices, thing, data, resp, rfl, hdev, hthing, hdata, h1, h2, h3, h4⟩
          · rintro ⟨tok', devices', thing', data', resp, h, hd', ht', hs', h1, h2, h3, h4⟩
            simp only [Except.ok.injEq] at h
            subst h
            rw [hthing] at ht'
            simp only [Except.ok.injEq] at ht'
            subst ht'
            rw [hdata] at hs'
            simp only [Prod.mk.injEq, and_true] at hs'
            subst hs'
            exact hf.1.2 ⟨resp, h1, h2, h3, h4⟩
        · refine ⟨⟨by simp [main, htok, hdev, hthing, hdata], ?_⟩,
            Or.inr (by simp [main, htok, hdev, hthing, hdata])⟩
          rintro ⟨tok', _, _, _, _, h, -, -, h', -⟩
          simp only [Except.ok.injEq] at h
          subst h
          rw [hdata] at h'; simp at h'

theorem exit_zero_iff_all_steps_succeed_witness :
    (main demoWorld).exit = 0 ∧ (main tokenFailWorld).exit ≠ 0 :=
  ⟨(exit_zero_iff_all_steps_succeed demoWorld).1.2
      ⟨⟨"tok", ⟨1700003600, 0⟩⟩, [], ⟨"T1"⟩,
        [⟨⟨1699999000, 0⟩, decimal 213 1⟩, ⟨⟨1699999500, 0⟩, decimal 2139 2⟩],
        ⟨"404 Not Found", 404⟩, rfl, rfl, rfl, rfl, fun _ _ _ _ _ => rfl, rfl, rfl, rfl⟩,
    fun h => by
      obtain ⟨_, _, _, _, _, htok, _⟩ := (exit_zero_iff_all_steps_succeed tokenFailWorld).1.1 h
      cases htok⟩

/-! ## The From filter -/

/-- In a local zone whose offset from UTC is zero at the instant
`now - 100 minutes`, the `From` filter is the RFC 3339 UTC text of that
instant. -/
theorem fromFilter_of_zero_offset (w : World)
    (h : w.zoneOffset (w.nowQuery.Add (-100 * Minute)).unix = 0) :
    fromFilter w = Time.rfc3339UTC (w.nowQuery.Add (-100 * Minute)) := by
  simp only [fromFilter, Time.Format, Time.rfc3339UTC, h, add_zero]

/-- C6: at 2024-01-01 12:00:00 in a zone one hour east of UTC the instant
`now - 100 minutes` is 2024-01-01T09:20:00Z, but the `From` filter passed to
the time-series call is `2024-01-01T10:20:00Z`: the local wall clock followed
by a `Z`, an instant one hour later. -/
theorem from_filter_in_zone_east_of_utc :
    Time.rfc3339UTC (cetWorld.nowQuery.Add (-100 * Minute)) = "2024-01-01T09:20:00Z" ∧
    fromFilter cetWorld = "2024-01-01T10:20:00Z" ∧
    Event.propertiesV2Timeseries "tok" "T1" "pid" "2024-01-01T10:20:00Z" ∈
      (main cetWorld).trace := by
  refine ⟨by decide, by decide, by decide⟩

/-! ## Rounding below one -/

/-- A non-zero number has at least one binary digit. -/
theorem bitLenAux_pos (fuel n : Nat) (hn : n ≠ 0) (hf : n ≤ fuel) : 1 ≤ bitLenAux fuel n := by
  cases fuel with
  | zero => omega
  | succ f => simp [bitLenAux, hn]

/-- A non-zero number is at least the power of two below its bit length. -/
theorem two_pow_bitLenAux_le (fuel n : Nat) (hn : n ≠ 0) (hf : n ≤ fuel) :
    2 ^ (bitLenAux fuel n - 1) ≤ n := by
  induction fuel generalizing n with
  | zero => omega
  | succ f ih =>
    simp only [bitLenAux, hn, if_false, Nat.add_sub_cancel]
    by_cases h2 : n / 2 = 0
    · have : bitLenAux f (n / 2) = 0 := by
        rw [h2]; cases f <;> simp [bitLenAux]
      rw [this]; simp; omega
    · have hle : n / 2 ≤ f := by omega
      have h1 := ih (n / 2) h2 hle
      have hp := bitLenAux_pos f (n / 2) h2 hle
      have : 2 ^ bitLenAux f (n / 2) = 2 * 2 ^ (bitLenAux f (n / 2) - 1) := by
        rw [← Nat.pow_succ']; congr 1; omega
      rw [this]; omega

/-- A non-zero number is at least `2 ^ (bitLen n - 1)`. -/
theorem two_pow_bitLen_le (n : Nat) (hn : n ≠ 0) : 2 ^ (bitLen n - 1) ≤ n :=
  two_pow_bitLenAux_le n n hn (Nat.le_refl n)

/-- A mantissa below `2^n` at exponent `-n`, `n ≥ 53`, packs to a finite value
whose truncation is zero. -/
theorem pack_truncMag_zero (neg : Bool) (q n : Nat) (hq : q < 2 ^ n) (hn : 53 ≤ n) :
    ∃ q' t', F64.pack neg q (-(n : Int)) = F64.fin neg q' t' ∧ F64.truncMag q' t' = 0 := by
  unfold F64.pack
  by_cases h53 : q = 2 ^ 53
  · have hn54 : 54 ≤ n := by
      by_contra hcon
      have : n = 53 := by omega
      subst this; omega
    refine ⟨2 ^ 52, -(n : Int) + 1, ?_, ?_⟩
    · simp only [h53, if_true, F64.eMax]
      rw [if_neg (by omega)]
    · unfold F64.truncMag
      rw [if_neg (by omega)]
      apply Nat.div_eq_of_lt
      have : (-(-(n : Int) + 1)).toNat = n - 1 := by omega
      rw [this]
      exact Nat.pow_lt_pow_right (by norm_num) (by omega)
  · refine ⟨q, -(n : Int), ?_, ?_⟩
    · simp only [h53, if_false, F64.eMax]
      rw [if_neg (by omega)]
    · unfold F64.truncMag
      rw [if_neg (by omega)]
      apply Nat.div_eq_of_lt
      have : (-(-(n : Int))).toNat = n := by omega
      rw [this]
      exact hq


/-- Rounding a value at most `1 - 6 * 2^-56` gives a finite value below one:
its truncation is zero. -/
theorem round_truncMag_zero (neg : Bool) (M k : Nat)
    (hM : M * 2 ^ 56 ≤ (2 ^ 56 - 6) * 2 ^ k) :
    ∃ q t, F64.round neg M (-(k : Int)) = F64.fin neg q t ∧ F64.truncMag q t = 0 := by
  unfold F64.round
  by_cases h0 : M = 0
  · refine ⟨0, F64.eMin, by simp [h0], ?_⟩
    simp [F64.truncMag]
  · rw [if_neg h0]
    have hkpos : 0 < 2 ^ k := pow_pos (by norm_num) _
    have hMk : M < 2 ^ k := by
      generalize 2 ^ k = X at hM hkpos
      norm_num at hM
      omega
    have hb := two_pow_bitLen_le M h0
    have hbk : bitLen M - 1 < k :=
      (Nat.pow_lt_pow_iff_right (by norm_num : 1 < 2)).1 (lt_of_le_of_lt hb hMk)
    obtain ⟨n, hn, hn53⟩ : ∃ n : Nat,
        max (-(k : Int) + (bitLen M : Int) - 53) F64.eMin = -(n : Int) ∧ 53 ≤ n := by
      refine ⟨(-(max (-(k : Int) + (bitLen M : Int) - 53) F64.eMin)).toNat, ?_, ?_⟩ <;>
        simp only [F64.eMin] <;> omega
    simp only [hn]
    by_cases hexact : -(n : Int) ≤ -(k : Int)
    · rw [if_pos hexact]
      apply pack_truncMag_zero neg _ n _ hn53
      have hj : (-(k : Int) - -(n : Int)).toNat = n - k := by omega
      rw [hj]
      have hsplit : 2 ^ n = 2 ^ k * 2 ^ (n - k) := by
        rw [← Nat.pow_add]; congr 1; omega
      rw [hsplit]
      exact Nat.mul_lt_mul_of_pos_right hMk (pow_pos (by norm_num) _)
    · rw [if_neg hexact]
      have hs : (-(n : Int) - -(k : Int)).toNat = k - n := by omega
      simp only [hs]
      have hnk : n < k := by omega
      apply pack_truncMag_zero neg _ n _ hn53
      have hsplit : 2 ^ k = 2 ^ (k - n) * 2 ^ n := by
        rw [← Nat.pow_add]; congr 1; omega
      have hspos : 0 < 2 ^ (k - n) := pow_pos (by norm_num) _
      have hq0 : M / 2 ^ (k - n) < 2 ^ n := by
        apply Nat.div_lt_of_lt_mul
        rw [← hsplit]; exact hMk
      split
      · rename_i hup
        by_contra hcon
        have hq : M / 2 ^ (k - n) + 1 = 2 ^ n := by omega
        have hA : 2 ^ (k - n) = 2 * 2 ^ (k - n - 1) := by
          rw [← Nat.pow_succ']; congr 1; omega
        have hB : 2 ^ 53 ≤ 2 ^ n := Nat.pow_le_pow_right (by norm_num) hn53
        have hdm := Nat.div_add_mod M (2 ^ (k - n))
        have hr : 2 ^ (k - n - 1) ≤ M % 2 ^ (k - n) := by
          rcases hup with h | h
          · exact Nat.le_of_lt h
          · exact Nat.le_of_eq h.1.symm
        have hP : 2 ^ (k - n - 1) * 2 ^ 53 ≤ 2 ^ (k - n - 1) * 2 ^ n :=
          Nat.mul_le_mul_left _ hB
        have hk2 : 2 ^ k = 2 * (2 ^ (k - n - 1) * 2 ^ n) := by
          rw [hsplit, hA]; ring
        have hApos : 0 < 2 ^ (k - n - 1) := pow_pos (by norm_num) _
        rw [hk2] at hM
        generalize M / 2 ^ (k - n) = q0 at hq hdm
        generalize M % 2 ^ (k - n) = r at hdm hr
        rw [hA] at hdm
        have hX : 2 * (2 ^ (k - n - 1) * q0) + 2 * 2 ^ (k - n - 1) =
            2 * (2 ^ (k - n - 1) * 2 ^ n) := by
          rw [← hq]; ring
        have hdm' : 2 * (2 ^ (k - n - 1) * q0) + r = M := by
          rw [← hdm]; ring
        generalize 2 ^ (k - n - 1) * q0 = X at hX hdm'
        generalize 2 ^ (k - n - 1) * 2 ^ n = P at hX hM hP
        generalize 2 ^ (k - n - 1) = A at hX hr hP hApos
        norm_num at hM hP
        omega
      · exact hq0

/-- A normal mantissa of a value below one tenth has exponent at most `-56`. -/
theorem exponent_le_of_lt_tenth (m : Nat) (e : Int) (hm : 2 ^ 52 ≤ m)
    (hlt : (m : ℚ) * (2 : ℚ) ^ e < 1 / 10) : e ≤ -56 := by
  by_contra hcon
  have he : (-55 : Int) ≤ e := by omega
  have h1 : (2 : ℚ) ^ (-55 : Int) ≤ (2 : ℚ) ^ e := zpow_le_zpow_right₀ (by norm_num) he
  have h2 : ((2 ^ 52 : Nat) : ℚ) ≤ (m : ℚ) := by exact_mod_cast hm
  have h3 : ((2 ^ 52 : Nat) : ℚ) * (2 : ℚ) ^ (-55 : Int) ≤ (m : ℚ) * (2 : ℚ) ^ e :=
    mul_le_mul h2 h1 (by positivity) (by positivity)
  have h4 : ((2 ^ 52 : Nat) : ℚ) * (2 : ℚ) ^ (-55 : Int) = 1 / 8 := by norm_num
  rw [h4] at h3
  linarith

/-- A value `m * 2^-j` below one tenth, over the integers: `10 * m < 2^j`. -/
theorem ten_mul_lt_of_lt_tenth (m j : Nat)
    (hlt : (m : ℚ) * (2 : ℚ) ^ (-(j : Int)) < 1 / 10) : 10 * m < 2 ^ j := by
  rw [zpow_neg, zpow_natCast] at hlt
  have hpos : (0 : ℚ) < 2 ^ j := by positivity
  have h1 : (m : ℚ) < 1 / 10 * 2 ^ j := by
    have := mul_lt_mul_of_pos_right hlt hpos
    rwa [mul_assoc, inv_mul_cancel₀ (ne_of_gt hpos), mul_one] at this
  have h2 : ((10 * m : Nat) : ℚ) < ((2 ^ j : Nat) : ℚ) := by
    push_cast; linarith
  exact_mod_cast h2

/-- Ten times a canonical finite value of magnitude below one tenth rounds to
a value of magnitude below one, which `int` turns into zero. -/
theorem toInt_mul_ten_of_lt_tenth (other : F64 → Int) (neg : Bool) (m : Nat) (e : Int)
    (hvalid : F64.valid (F64.fin neg m e))
    (hlt : (m : ℚ) * (2 : ℚ) ^ e < 1 / 10) :
    F64.toInt other (F64.mul (F64.fin neg m e) (F64.ofInt 10)) = 0 := by
  have hten : F64.ofInt 10 = F64.fin false 5629499534213120 (-49) := by decide
  obtain ⟨hm53, hemin, -, hsub⟩ := hvalid
  simp only [F64.eMin] at hemin hsub
  rw [hten]
  simp only [F64.mul]
  have hk : ∃ k : Nat, e + -49 = -(k : Int) ∧
      m * 5629499534213120 * 2 ^ 56 ≤ (2 ^ 56 - 6) * 2 ^ k := by
    by_cases hm : m < 2 ^ 52
    · have he := hsub hm
      refine ⟨1123, by omega, ?_⟩
      norm_num at hm ⊢
      omega
    · have hm' : 2 ^ 52 ≤ m := by omega
      have he := exponent_le_of_lt_tenth m e hm' hlt
      obtain ⟨j, hj⟩ : ∃ j : Nat, e = -(j : Int) := ⟨(-e).toNat, by omega⟩
      subst hj
      have h10 := ten_mul_lt_of_lt_tenth m j hlt
      refine ⟨49 + j, by omega, ?_⟩
      by_cases hj56 : j = 56
      · subst hj56
        norm_num at h10 ⊢
        omega
      · have hj57 : 57 ≤ j := by omega
        have hpow : 2 ^ 106 ≤ 2 ^ (49 + j) := Nat.pow_le_pow_right (by norm_num) (by omega)
        generalize 2 ^ (49 + j) = X at hpow
        norm_num at hm53 hpow ⊢
        omega
  obtain ⟨k, hk1, hk2⟩ := hk
  rw [hk1]
  obtain ⟨q, t, hq, htr⟩ := round_truncMag_zero (xor neg false) _ k hk2
  rw [hq]
  simp [F64.toInt, htr]

/-! ## Truncation -/

/-- The shifts of `truncMag` compute the floor of the magnitude. -/
theorem truncMag_eq_floor (m : Nat) (e : Int) :
    ((F64.truncMag m e : Nat) : Int) = ⌊(m : ℚ) * (2 : ℚ) ^ e⌋ := by
  unfold F64.truncMag
  by_cases he : 0 ≤ e
  · rw [if_pos he]
    obtain ⟨j, rfl⟩ : ∃ j : Nat, e = (j : Int) := ⟨e.toNat, by omega⟩
    have : (m : ℚ) * (2 : ℚ) ^ ((j : Int)) = ((m * 2 ^ j : Nat) : ℚ) := by
      rw [zpow_natCast]; push_cast; ring
    rw [this, Int.floor_natCast]
    simp
  · rw [if_neg he]
    obtain ⟨j, rfl⟩ : ∃ j : Nat, e = -(j : Int) := ⟨(-e).toNat, by omega⟩
    have : (m : ℚ) * (2 : ℚ) ^ (-(j : Int)) = (m : ℚ) / ((2 ^ j : Nat) : ℚ) := by
      rw [zpow_neg, zpow_natCast]; push_cast; ring
    rw [this, Rat.floor_natCast_div_natCast]
    simp

/-- The conversion `int(x)` of a finite `x` whose value lies in the range of a
64-bit `int` is the truncation of that value toward zero. -/
theorem toInt_eq_truncToZero (other : F64 → Int) (neg : Bool) (m : Nat) (e : Int)
    (hlo : -(2 : ℚ) ^ 63 ≤ F64.toRat (F64.fin neg m e))
    (hhi : F64.toRat (F64.fin neg m e) ≤ (2 : ℚ) ^ 63 - 1) :
    F64.toInt other (F64.fin neg m e) = truncToZero (F64.toRat (F64.fin neg m e)) := by
  have hfl := truncMag_eq_floor m e
  have hx0 : (0 : ℚ) ≤ (m : ℚ) * (2 : ℚ) ^ e := by positivity
  have hfl0 : 0 ≤ ⌊(m : ℚ) * (2 : ℚ) ^ e⌋ := Int.floor_nonneg.2 hx0
  have hle := Int.floor_le ((m : ℚ) * (2 : ℚ) ^ e)
  simp only [F64.toInt, F64.toRat, truncToZero] at *
  cases neg with
  | false =>
    simp only [Bool.false_eq_true, if_false, one_mul] at *
    rw [if_pos hx0, hfl]
    have hhi' : ((⌊(m : ℚ) * (2 : ℚ) ^ e⌋ : Int) : ℚ) ≤ ((2 ^ 63 - 1 : Int) : ℚ) := by
      push_cast; linarith
    have hhi'' : ⌊(m : ℚ) * (2 : ℚ) ^ e⌋ ≤ 2 ^ 63 - 1 := by exact_mod_cast hhi'
    rw [if_pos ⟨by omega, hhi''⟩]
  | true =>
    simp only [if_true, neg_one_mul, neg_mul, one_mul] at *
    rw [hfl]
    have hlo' : ((⌊(m : ℚ) * (2 : ℚ) ^ e⌋ : Int) : ℚ) ≤ ((2 ^ 63 : Int) : ℚ) := by
      push_cast; linarith
    have hlo'' : ⌊(m : ℚ) * (2 : ℚ) ^ e⌋ ≤ 2 ^ 63 := by exact_mod_cast hlo'
    rw [if_pos ⟨by omega, by omega⟩]
    by_cases hz : (0 : ℚ) ≤ -((m : ℚ) * (2 : ℚ) ^ e)
    · rw [if_pos hz]
      have : (m : ℚ) * (2 : ℚ) ^ e = 0 := by linarith
      rw [this]; simp
    · rw [if_neg hz, Int.ceil_neg]

/-! ## The value field -/

/-- The `value` entry of the map `formFields`. -/
theorem mem_formFields_value (w : World) (t p : String) (v : F64) (u : Int) (x : String) :
    ("value", x) ∈ formFields w t p v u ↔
      x = sprintInt (F64.toInt w.floatToInt (F64.mul v (F64.ofInt 10))) := by
  simp [formFields]

/-- C3: the `value` field is the decimal text of the `float64` product
`v * 10` truncated toward zero, not rounded: whenever the product is finite
and within the range of a 64-bit `int`, the field is the truncation toward
zero of the product's value.  The aggregate 21.39 gives `213`, and every
aggregate strictly between -0.1 and 0.1 gives `0`. -/
theorem value_is_truncated_product (w : World) (t p : String) (v : F64) (u : Int) :
    (∀ neg m e, F64.mul v (F64.ofInt 10) = F64.fin neg m e →
      -(2 : ℚ) ^ 63 ≤ F64.toRat (F64.fin neg m e) →
      F64.toRat (F64.fin neg m e) ≤ (2 : ℚ) ^ 63 - 1 →
      ∀ x, ("value", x) ∈ formFields w t p v u ↔
        x = sprintInt (truncToZero (F64.toRat (F64.fin neg m e)))) ∧
    (v = decimal 2139 2 → ∀ x, ("value", x) ∈ formFields w t p v u ↔ x = "213") ∧
    (∀ neg m e, v = F64.fin neg m e → F64.valid v →
      -(1 / 10 : ℚ) < F64.toRat v → F64.toRat v < 1 / 10 →
      ∀ x, ("value", x) ∈ formFields w t p v u ↔ x = "0") := by
  refine ⟨?_, ?_, ?_⟩
  · intro neg m e hprod hlo hhi x
    rw [mem_formFields_value, hprod, toInt_eq_truncToZero w.floatToInt neg m e hlo hhi]
  · intro hv x
    have hprod : F64.mul (decimal 2139 2) (F64.ofInt 10) =
        F64.fin false 7525937189801165 (-45) := by
      set_option maxRecDepth 100000 in decide
    have hint : F64.toInt w.floatToInt (F64.fin false 7525937189801165 (-45)) = 213 := rfl
    have hstr : sprintInt 213 = "213" := by decide
    rw [mem_formFields_value, hv, hprod, hint, hstr]
  · intro neg m e hv hvalid hlo hhi x
    have hstr : sprintInt 0 = "0" := by decide
    have hlt : (m : ℚ) * (2 : ℚ) ^ e < 1 / 10 := by
      rw [hv] at hlo hhi
      simp only [F64.toRat] at hlo hhi
      cases neg with
      | false => simpa using hhi
      | true =>
        simp only [if_true, neg_one_mul, neg_mul] at hlo
        linarith
    rw [hv] at hvalid
    rw [mem_formFields_value, hv, toInt_mul_ten_of_lt_tenth w.floatToInt neg m e hvalid hlt, hstr]

set_option maxRecDepth 100000 in
theorem value_is_truncated_product_witness :
    (∀ x, ("value", x) ∈ formFields demoWorld "T1" "S1" (decimal 2139 2) 1700000000 ↔
      x = "213") ∧
    (∀ x, ("value", x) ∈
        formFields demoWorld "T1" "S1" (F64.fin false 7205759403792793 (-56)) 1700000000 ↔
      x = "0") ∧
    (∀ x, ("value", x) ∈ formFields demoWorld "T1" "S1" (decimal 3 1) 1700000000 ↔
      x = sprintInt (truncToZero (F64.toRat (F64.fin false 6755399441055744 (-51))))) :=
  ⟨(value_is_truncated_product demoWorld "T1" "S1" (decimal 2139 2) 1700000000).2.1 rfl,
    (value_is_truncated_product demoWorld "T1" "S1" (F64.fin false 7205759403792793 (-56))
      1700000000).2.2 false 7205759403792793 (-56) rfl (by decide)
      (by norm_num [F64.toRat]) (by norm_num [F64.toRat]),
    (value_is_truncated_product demoWorld "T1" "S1" (decimal 3 1) 1700000000).1
      false 6755399441055744 (-51) (by decide)
      (by norm_num [F64.toRat]) (by norm_num [F64.toRat])⟩

/-! ## Rounding to nearest -/

/-- A number is below the power of two of its bit length. -/
theorem lt_two_pow_bitLenAux (fuel n : Nat) (hf : n ≤ fuel) : n < 2 ^ bitLenAux fuel n := by
  induction fuel generalizing n with
  | zero =>
    have : n = 0 := by omega
    subst this; simp [bitLenAux]
  | succ f ih =>
    by_cases hn : n = 0
    · subst hn; simp [bitLenAux]
    · simp only [bitLenAux, hn, if_false]
      have h1 := ih (n / 2) (by omega)
      rw [Nat.pow_succ]
      omega

theorem lt_two_pow_bitLen (n : Nat) : n < 2 ^ bitLen n :=
  lt_two_pow_bitLenAux n n (Nat.le_refl n)

/-- Dropping `s` low digits with the nearest-even decision moves a number by
at most half a unit of the kept digits, and by less when the number is odd
and at least two digits are dropped. -/
theorem rne_decision_bounds (N s : Nat) (hs : 1 ≤ s) (q : Nat)
    (hq : q = if 2 ^ (s - 1) < N % 2 ^ s ∨ (N % 2 ^ s = 2 ^ (s - 1) ∧ N / 2 ^ s % 2 = 1)
      then N / 2 ^ s + 1 else N / 2 ^ s) :
    N / 2 ^ s ≤ q ∧ q ≤ N / 2 ^ s + 1 ∧
    q * 2 ^ s ≤ N + 2 ^ (s - 1) ∧ N ≤ q * 2 ^ s + 2 ^ (s - 1) ∧
    N / 2 ^ s * 2 ^ s ≤ N ∧
    (N % 2 = 1 → 2 ≤ s →
      q * 2 ^ s + 1 ≤ N + 2 ^ (s - 1) ∧ N + 1 ≤ q * 2 ^ s + 2 ^ (s - 1) ∧
      N / 2 ^ s * 2 ^ s + 1 ≤ N) := by
  have hA : 2 ^ s = 2 * 2 ^ (s - 1) := by
    rw [← Nat.pow_succ']; congr 1; omega
  have hdm := Nat.div_add_mod N (2 ^ s)
  have hr := Nat.mod_lt N (show 0 < 2 ^ s from pow_pos (by norm_num) _)
  have hcomm : N / 2 ^ s * 2 ^ s = 2 * (2 ^ (s - 1) * (N / 2 ^ s)) := by
    rw [hA]; ring
  have hcomm1 : (N / 2 ^ s + 1) * 2 ^ s = 2 * (2 ^ (s - 1) * (N / 2 ^ s)) + 2 * 2 ^ (s - 1) := by
    rw [hA]; ring
  have hdm' : 2 * (2 ^ (s - 1) * (N / 2 ^ s)) + N % 2 ^ s = N := by
    rw [← hcomm, Nat.mul_comm]; exact hdm
  have heven : 2 ≤ s → ∃ h', 2 ^ (s - 1) = 2 * h' := by
    intro h2
    refine ⟨2 ^ (s - 2), ?_⟩
    rw [← Nat.pow_succ']; congr 1; omega
  rw [hA] at hr
  split at hq
  · rename_i hup
    subst hq
    rw [hcomm, hcomm1]
    refine ⟨by omega, by omega, ?_, ?_, by omega, ?_⟩
    · rcases hup with h | h <;> omega
    · omega
    · intro hodd h2
      obtain ⟨h', hh'⟩ := heven h2
      rcases hup with h | h <;> omega
  · rename_i hup
    subst hq
    rw [hcomm]
    have hle : N % 2 ^ s ≤ 2 ^ (s - 1) := by
      by_contra hcon
      exact hup (Or.inl (by omega))
    refine ⟨by omega, by omega, by omega, by omega, by omega, ?_⟩
    intro hodd h2
    obtain ⟨h', hh'⟩ := heven h2
    omega


/-- The shape of `round` on a non-zero mantissa standing for `X`: the result
packs a mantissa `q` at an exponent `t ≥ eMin` such that `q` is within half a
unit of `X / 2^t`, and above the smallest exponent both are at least `2^52`. -/
theorem round_core (neg : Bool) (N : Nat) (g : Int) (X : ℚ) (hN : N ≠ 0)
    (hX : F64.StandsFor N g X) :
    ∃ (q : Nat) (t : Int), F64.round neg N g = F64.pack neg q t ∧ F64.eMin ≤ t ∧ q ≤ 2 ^ 53 ∧
      (t ≠ F64.eMin → 2 ^ 52 ≤ q ∧ (2 : ℚ) ^ 52 ≤ X * (2 : ℚ) ^ (-t)) ∧
      |(q : ℚ) - X * (2 : ℚ) ^ (-t)| ≤ 1 / 2 := by
  have hlo := two_pow_bitLen_le N hN
  have hhi := lt_two_pow_bitLen N
  have h2 : (2 : ℚ) ≠ 0 := by norm_num
  unfold F64.round
  rw [if_neg hN]
  obtain ⟨t, ht⟩ : ∃ t, max (g + (bitLen N : Int) - 53) F64.eMin = t := ⟨_, rfl⟩
  simp only [ht]
  have ht1 : F64.eMin ≤ t := by rw [← ht]; exact le_max_right _ _
  have ht2 : g + (bitLen N : Int) - 53 ≤ t := by rw [← ht]; exact le_max_left _ _
  have ht3 : t ≠ F64.eMin → t = g + (bitLen N : Int) - 53 := by
    intro h
    rcases max_choice (g + (bitLen N : Int) - 53) F64.eMin with hc | hc
    · rw [← ht, hc]
    · exact absurd (ht.symm.trans hc) h
  by_cases hexact : t ≤ g
  · rw [if_pos hexact]
    obtain ⟨j, hj⟩ : ∃ j : Nat, g - t = (j : Int) := ⟨(g - t).toNat, by omega⟩
    have hj' : (g - t).toNat = j := by omega
    rw [hj']
    have hbj : bitLen N + j ≤ 53 := by omega
    have hXN : X * (2 : ℚ) ^ (-g) = N := by
      rcases hX with h | ⟨-, hbig, -, -⟩
      · exact h
      · exfalso
        have : 2 ^ 54 < 2 ^ bitLen N := lt_of_le_of_lt hbig hhi
        have := (Nat.pow_lt_pow_iff_right (by norm_num : 1 < 2)).1 this
        omega
    have hY : X * (2 : ℚ) ^ (-t) = ((N * 2 ^ j : Nat) : ℚ) := by
      have : (2 : ℚ) ^ (-t) = (2 : ℚ) ^ (-g) * (2 : ℚ) ^ (j : Int) := by
        rw [← zpow_add₀ h2]; congr 1; omega
      rw [this, ← mul_assoc, hXN, zpow_natCast]; push_cast; ring
    refine ⟨N * 2 ^ j, t, rfl, ht1, ?_, ?_, ?_⟩
    · have : N * 2 ^ j < 2 ^ bitLen N * 2 ^ j :=
        Nat.mul_lt_mul_of_pos_right hhi (pow_pos (by norm_num) _)
      rw [← Nat.pow_add] at this
      exact le_of_lt (lt_of_lt_of_le this (Nat.pow_le_pow_right (by norm_num) hbj))
    · intro hne
      have hq : 2 ^ 52 ≤ N * 2 ^ j := by
        have hj53 : j = 53 - bitLen N := by have := ht3 hne; omega
        have hsplit : 2 ^ 52 = 2 ^ (bitLen N - 1) * 2 ^ j := by
          rw [← Nat.pow_add]; congr 1
          have : 1 ≤ bitLen N := by
            by_contra hcon
            have h0 : bitLen N = 0 := by omega
            rw [h0] at hhi; omega
          omega
        rw [hsplit]
        exact Nat.mul_le_mul_right _ hlo
      refine ⟨hq, ?_⟩
      rw [hY]
      exact_mod_cast hq
    · rw [hY]; simp
  · rw [if_neg hexact]
    obtain ⟨s, hs⟩ : ∃ s : Nat, t - g = (s : Int) := ⟨(t - g).toNat, by omega⟩
    have hs' : (t - g).toNat = s := by omega
    have hs1 : 1 ≤ s := by omega
    simp only [hs']
    obtain ⟨hq1, hq2, hq3, hq4, hq5, hq6⟩ := rne_decision_bounds N s hs1 _ rfl
    generalize (if 2 ^ (s - 1) < N % 2 ^ s ∨ (N % 2 ^ s = 2 ^ (s - 1) ∧ N / 2 ^ s % 2 = 1)
      then N / 2 ^ s + 1 else N / 2 ^ s) = q at hq1 hq2 hq3 hq4 hq6 ⊢
    have hA : 2 ^ s = 2 * 2 ^ (s - 1) := by
      rw [← Nat.pow_succ']; congr 1; omega
    have hD : (0 : ℚ) < (2 : ℚ) ^ s := by positivity
    have hDH : ((2 : ℚ) ^ s) = 2 * ((2 ^ (s - 1) : Nat) : ℚ) := by
      have : ((2 ^ s : Nat) : ℚ) = ((2 * 2 ^ (s - 1) : Nat) : ℚ) := by rw [hA]
      push_cast at this ⊢; exact this
    -- the exact value in units of 2^t, times 2^s, is the value in units of 2^g
    have hYD : X * (2 : ℚ) ^ (-t) * (2 : ℚ) ^ s = X * (2 : ℚ) ^ (-g) := by
      have : (2 : ℚ) ^ (-g) = (2 : ℚ) ^ (-t) * (2 : ℚ) ^ (s : Int) := by
        rw [← zpow_add₀ h2]; congr 1; omega
      rw [this, zpow_natCast, mul_assoc]
    -- bounds on the value in units of 2^g, from the decision
    have hq3' : ((q * 2 ^ s : Nat) : ℚ) ≤ ((N + 2 ^ (s - 1) : Nat) : ℚ) := by exact_mod_cast hq3
    have hq4' : ((N : Nat) : ℚ) ≤ ((q * 2 ^ s + 2 ^ (s - 1) : Nat) : ℚ) := by exact_mod_cast hq4
    have hq5' : ((N / 2 ^ s * 2 ^ s : Nat) : ℚ) ≤ (N : ℚ) := by exact_mod_cast hq5
    push_cast at hq3' hq4' hq5'
    have hXlo : ((N / 2 ^ s : Nat) : ℚ) * (2 : ℚ) ^ s ≤ X * (2 : ℚ) ^ (-g) ∧
        (q : ℚ) * (2 : ℚ) ^ s ≤ X * (2 : ℚ) ^ (-g) + ((2 ^ (s - 1) : Nat) : ℚ) ∧
        X * (2 : ℚ) ^ (-g) ≤ (q : ℚ) * (2 : ℚ) ^ s + ((2 ^ (s - 1) : Nat) : ℚ) := by
      rcases hX with h | ⟨hodd, hbig, hl, hu⟩
      · rw [h]; push_cast; exact ⟨hq5', hq3', hq4'⟩
      · have hb55 : 55 ≤ bitLen N := by
          have : 2 ^ 54 < 2 ^ bitLen N := lt_of_le_of_lt hbig hhi
          have := (Nat.pow_lt_pow_iff_right (by norm_num : 1 < 2)).1 this
          omega
        obtain ⟨h6a, h6b, h6c⟩ := hq6 hodd (by omega)
        have h6a' : ((q * 2 ^ s + 1 : Nat) : ℚ) ≤ ((N + 2 ^ (s - 1) : Nat) : ℚ) := by
          exact_mod_cast h6a
        have h6b' : ((N + 1 : Nat) : ℚ) ≤ ((q * 2 ^ s + 2 ^ (s - 1) : Nat) : ℚ) := by
          exact_mod_cast h6b
        have h6c' : ((N / 2 ^ s * 2 ^ s + 1 : Nat) : ℚ) ≤ (N : ℚ) := by exact_mod_cast h6c
        push_cast at h6a' h6b' h6c' ⊢
        refine ⟨by linarith, by linarith, by linarith⟩
    obtain ⟨hx1, hx2, hx3⟩ := hXlo
    refine ⟨q, t, rfl, ht1, ?_, ?_, ?_⟩
    · have hbs : bitLen N ≤ 53 + s := by omega
      have : N < 2 ^ s * 2 ^ 53 := by
        rw [← Nat.pow_add]
        exact lt_of_lt_of_le hhi (Nat.pow_le_pow_right (by norm_num) (by omega))
      have := Nat.div_lt_of_lt_mul this
      omega
    · intro hne
      have hsb : bitLen N = 53 + s := by have := ht3 hne; omega
      have hQ0 : 2 ^ 52 ≤ N / 2 ^ s := by
        rw [Nat.le_div_iff_mul_le (pow_pos (by norm_num) _), ← Nat.pow_add]
        have : 52 + s = bitLen N - 1 := by omega
        rw [this]; exact hlo
      refine ⟨le_trans hQ0 hq1, ?_⟩
      have h52 : ((2 ^ 52 : Nat) : ℚ) ≤ ((N / 2 ^ s : Nat) : ℚ) := by exact_mod_cast hQ0
      have : (2 : ℚ) ^ 52 * (2 : ℚ) ^ s ≤ X * (2 : ℚ) ^ (-t) * (2 : ℚ) ^ s := by
        rw [hYD]
        refine le_trans ?_ hx1
        push_cast at h52
        exact mul_le_mul_of_nonneg_right h52 (le_of_lt hD)
      exact le_of_mul_le_mul_right this hD
    · rw [abs_le]
      constructor
      · have : (-(1 / 2) : ℚ) * (2 : ℚ) ^ s ≤ ((q : ℚ) - X * (2 : ℚ) ^ (-t)) * (2 : ℚ) ^ s := by
          rw [sub_mul, hYD, hDH]; rw [hDH] at hx3; linarith
        exact le_of_mul_le_mul_right this hD
      · have : ((q : ℚ) - X * (2 : ℚ) ^ (-t)) * (2 : ℚ) ^ s ≤ (1 / 2 : ℚ) * (2 : ℚ) ^ s := by
          rw [sub_mul, hYD, hDH]; rw [hDH] at hx2; linarith
        exact le_of_mul_le_mul_right this hD

/-- A mantissa and exponent in range pack to a canonical finite value of the
same magnitude. -/
theorem pack_valid (neg : Bool) (q : Nat) (t : Int) (ht : F64.eMin ≤ t) (hq : q ≤ 2 ^ 53)
    (hnorm : t ≠ F64.eMin → 2 ^ 52 ≤ q) (hfit : t ≤ F64.eMax)
    (hcarry : q = 2 ^ 53 → t + 1 ≤ F64.eMax) :
    ∃ q2 t2, F64.pack neg q t = F64.fin neg q2 t2 ∧ F64.valid (F64.fin neg q2 t2) ∧
      (q2 : ℚ) * (2 : ℚ) ^ t2 = (q : ℚ) * (2 : ℚ) ^ t := by
  unfold F64.pack
  simp only [F64.eMin, F64.eMax] at *
  by_cases h53 : q = 2 ^ 53
  · have hc := hcarry h53
    refine ⟨2 ^ 52, t + 1, ?_, ?_, ?_⟩
    · rw [if_pos h53, if_neg (by omega)]
    · refine ⟨by norm_num, by simp only [F64.eMin]; omega, by simp only [F64.eMax]; omega, ?_⟩
      intro h; norm_num at h
    · rw [h53, zpow_add₀ (by norm_num : (2 : ℚ) ≠ 0)]
      push_cast; ring
  · refine ⟨q, t, ?_, ?_, rfl⟩
    · rw [if_neg h53, if_neg (by omega)]
    · refine ⟨by omega, by simp only [F64.eMin]; omega, by simp only [F64.eMax]; omega, ?_⟩
      intro h
      simp only [F64.eMin]
      by_contra hne
      have := hnorm hne
      omega

/-- A mantissa within half a unit of `X / 2^t` on the grid of spacing `2^t` is
at least as close to `X` as any canonical finite magnitude. -/
theorem grid_nearest (X : ℚ) (q : Nat) (t : Int)
    (hq : |(q : ℚ) - X * (2 : ℚ) ^ (-t)| ≤ 1 / 2)
    (hnorm : t ≠ F64.eMin → 2 ^ 52 ≤ q ∧ (2 : ℚ) ^ 52 ≤ X * (2 : ℚ) ^ (-t))
    (m : Nat) (e : Int) (hm : m < 2 ^ 53) (he : F64.eMin ≤ e) :
    |(q : ℚ) * (2 : ℚ) ^ t - X| ≤ |(m : ℚ) * (2 : ℚ) ^ e - X| := by
  have h2 : (2 : ℚ) ≠ 0 := by norm_num
  have hP : (0 : ℚ) < (2 : ℚ) ^ t := by positivity
  have hXY : X = X * (2 : ℚ) ^ (-t) * (2 : ℚ) ^ t := by
    rw [mul_assoc, ← zpow_add₀ h2]; simp
  have hmW : (m : ℚ) * (2 : ℚ) ^ e = (m : ℚ) * (2 : ℚ) ^ (e - t) * (2 : ℚ) ^ t := by
    rw [mul_assoc, ← zpow_add₀ h2]; congr 2; omega
  generalize X * (2 : ℚ) ^ (-t) = Y at hq hnorm hXY
  have hl : |(q : ℚ) * (2 : ℚ) ^ t - X| = |(q : ℚ) - Y| * (2 : ℚ) ^ t := by
    rw [hXY, ← sub_mul, abs_mul, abs_of_pos hP]
  have hr : |(m : ℚ) * (2 : ℚ) ^ e - X| = |(m : ℚ) * (2 : ℚ) ^ (e - t) - Y| * (2 : ℚ) ^ t := by
    rw [hmW, hXY, ← sub_mul, abs_mul, abs_of_pos hP]
  rw [hl, hr]
  apply mul_le_mul_of_nonneg_right _ (le_of_lt hP)
  by_cases hle : t ≤ e
  · obtain ⟨j, hj⟩ : ∃ j : Nat, e - t = (j : Int) := ⟨(e - t).toNat, by omega⟩
    have hW : (m : ℚ) * (2 : ℚ) ^ (e - t) = ((m * 2 ^ j : Nat) : ℚ) := by
      rw [hj, zpow_natCast]; push_cast; ring
    rw [hW]
    generalize m * 2 ^ j = k
    by_cases hk : k = q
    · rw [hk]
    · have h1 : (1 : ℚ) ≤ |(k : ℚ) - (q : ℚ)| := by
        rcases Nat.lt_or_gt_of_ne hk with h | h
        · have : ((k + 1 : Nat) : ℚ) ≤ (q : ℚ) := by exact_mod_cast h
          push_cast at this
          rw [abs_sub_comm, abs_of_nonneg (by linarith)]; linarith
        · have : ((q + 1 : Nat) : ℚ) ≤ (k : ℚ) := by exact_mod_cast h
          push_cast at this
          rw [abs_of_nonneg (by linarith)]; linarith
      have h3 := abs_sub_le (k : ℚ) Y (q : ℚ)
      rw [abs_sub_comm Y (q : ℚ)] at h3
      linarith
  · have hne : t ≠ F64.eMin := by omega
    obtain ⟨hq52, hY52⟩ := hnorm hne
    have hq52' : ((2 ^ 52 : Nat) : ℚ) ≤ (q : ℚ) := by exact_mod_cast hq52
    push_cast at hq52'
    have hhalf : (2 : ℚ) ^ (e - t) ≤ (2 : ℚ) ^ (-1 : Int) :=
      zpow_le_zpow_right₀ (by norm_num) (by omega)
    have hm' : ((m + 1 : Nat) : ℚ) ≤ ((2 ^ 53 : Nat) : ℚ) := by exact_mod_cast hm
    push_cast at hm'
    have hW : (m : ℚ) * (2 : ℚ) ^ (e - t) ≤ (2 : ℚ) ^ 52 - 1 / 2 := by
      have h1 : (m : ℚ) * (2 : ℚ) ^ (e - t) ≤ (m : ℚ) * (2 : ℚ) ^ (-1 : Int) :=
        mul_le_mul_of_nonneg_left hhalf (by positivity)
      have h3 : (2 : ℚ) ^ (-1 : Int) = 1 / 2 := by norm_num
      rw [h3] at h1
      have h4 : (2 : ℚ) ^ 53 = 2 * (2 : ℚ) ^ 52 := by norm_num
      linarith
    obtain ⟨hq1, hq2⟩ := abs_le.1 hq
    have hgoal : |(q : ℚ) - Y| ≤ Y - (m : ℚ) * (2 : ℚ) ^ (e - t) := by
      rw [abs_le]; constructor <;> linarith
    refine le_trans hgoal ?_
    rw [abs_sub_comm]
    exact le_abs_self _

/-- A magnitude that some integer stands for is not negative. -/
theorem standsFor_nonneg {N : Nat} {g : Int} {X : ℚ} (hX : F64.StandsFor N g X) : 0 ≤ X := by
  have hP : (0 : ℚ) < (2 : ℚ) ^ (-g) := by positivity
  have h0 : (0 : ℚ) ≤ X * (2 : ℚ) ^ (-g) := by
    rcases hX with h | ⟨hodd, -, hl, -⟩
    · rw [h]; positivity
    · have : (1 : ℚ) ≤ (N : ℚ) := by
        have : 1 ≤ N := by omega
        exact_mod_cast this
      linarith
  by_contra hneg
  have : X * (2 : ℚ) ^ (-g) < 0 := mul_neg_of_neg_of_pos (not_le.1 hneg) hP
  linarith

/-- Two magnitudes are no further apart than their sum. -/
theorem abs_sub_le_add_of_nonneg (a b : ℚ) (ha : 0 ≤ a) (hb : 0 ≤ b) : |a - b| ≤ a + b := by
  rw [abs_le]; constructor <;> linarith

/-- The function `round` rounds to nearest: when `N` in units of `2^g` stands
for a magnitude `X` no larger than the largest finite binary64, the result is
a canonical finite value and no canonical finite value is closer to the
signed `X`. -/
theorem round_nearest (neg : Bool) (N : Nat) (g : Int) (X : ℚ)
    (hX : F64.StandsFor N g X) (hmax : X ≤ F64.maxFinite) :
    F64.IsNearest ((if neg then -1 else 1) * X) (F64.round neg N g) := by
  have h2 : (2 : ℚ) ≠ 0 := by norm_num
  have hX0 := standsFor_nonneg hX
  by_cases hN : N = 0
  · subst hN
    have hXz : X = 0 := by
      rcases hX with h | ⟨hodd, -, -, -⟩
      · have hP : (2 : ℚ) ^ (-g) ≠ 0 := zpow_ne_zero _ h2
        rw [Nat.cast_zero] at h
        exact (mul_eq_zero.1 h).resolve_right hP
      · omega
    subst hXz
    have hr : F64.round neg 0 g = F64.fin neg 0 F64.eMin := by simp [F64.round]
    rw [hr]
    refine ⟨⟨neg, 0, F64.eMin, rfl⟩, ?_, ?_⟩
    · refine ⟨by norm_num, le_refl _, by simp [F64.eMin, F64.eMax], fun _ => rfl⟩
    · intro nz m e _
      simp [F64.toRat]
  · obtain ⟨q, t, hr, ht, hq, hnorm, hhalf⟩ := round_core neg N g X hN hX
    have hP : (0 : ℚ) < (2 : ℚ) ^ t := by positivity
    have hXY : X = X * (2 : ℚ) ^ (-t) * (2 : ℚ) ^ t := by
      rw [mul_assoc, ← zpow_add₀ h2]; simp
    have hfit : t ≤ F64.eMax := by
      by_contra hcon
      simp only [F64.eMax, F64.eMin] at hcon ht
      have hne : t ≠ F64.eMin := by simp only [F64.eMin]; omega
      obtain ⟨-, hY⟩ := hnorm hne
      have hmono : (2 : ℚ) ^ (972 : Int) ≤ (2 : ℚ) ^ t :=
        zpow_le_zpow_right₀ (by norm_num) (by omega)
      have : (2 : ℚ) ^ 52 * (2 : ℚ) ^ (972 : Int) ≤ X := by
        rw [hXY]
        exact mul_le_mul hY hmono (by positivity) (by linarith [hX0, mul_nonneg hX0 (le_of_lt (show (0:ℚ) < (2:ℚ) ^ (-t) by positivity))])
      have hbig : F64.maxFinite < (2 : ℚ) ^ 52 * (2 : ℚ) ^ (972 : Int) := by
        simp only [F64.maxFinite]; norm_num
      linarith
    have hcarry : q = 2 ^ 53 → t + 1 ≤ F64.eMax := by
      intro h53
      by_contra hcon
      simp only [F64.eMax, F64.eMin] at hcon ht
      have hmono : (2 : ℚ) ^ (971 : Int) ≤ (2 : ℚ) ^ t :=
        zpow_le_zpow_right₀ (by norm_num) (by omega)
      have hq' : (q : ℚ) = (2 : ℚ) ^ 53 := by rw [h53]; push_cast; rfl
      obtain ⟨-, hh⟩ := abs_le.1 hhalf
      have hY : (2 : ℚ) ^ 53 - 1 / 2 ≤ X * (2 : ℚ) ^ (-t) := by linarith
      have : ((2 : ℚ) ^ 53 - 1 / 2) * (2 : ℚ) ^ (971 : Int) ≤ X := by
        rw [hXY]
        exact mul_le_mul hY hmono (by positivity) (by linarith [show (0:ℚ) ≤ (2:ℚ)^53 - 1/2 by norm_num])
      have hbig : F64.maxFinite < ((2 : ℚ) ^ 53 - 1 / 2) * (2 : ℚ) ^ (971 : Int) := by
        simp only [F64.maxFinite]; norm_num
      linarith
    obtain ⟨q2, t2, hpack, hvalid, hval⟩ :=
      pack_valid neg q t ht hq (fun h => (hnorm h).1) hfit hcarry
    rw [hr, hpack]
    refine ⟨⟨neg, q2, t2, rfl⟩, hvalid, ?_⟩
    intro nz m e hz
    obtain ⟨hm, he, -, -⟩ := hz
    have hg := grid_nearest X q t hhalf hnorm m e hm he
    have hmz : (0 : ℚ) ≤ (m : ℚ) * (2 : ℚ) ^ e := by positivity
    have hsum := abs_sub_le_add_of_nonneg ((m : ℚ) * (2 : ℚ) ^ e) X hmz hX0
    simp only [F64.toRat]
    rw [mul_assoc, hval]
    cases neg <;> cases nz <;> simp only [Bool.false_eq_true, if_false, if_true, one_mul,
      neg_one_mul, neg_mul]
    · exact hg
    · refine le_trans hg (le_trans hsum ?_)
      rw [show -((m : ℚ) * (2 : ℚ) ^ e) - X = -((m : ℚ) * (2 : ℚ) ^ e + X) by ring, abs_neg]
      exact le_abs_self _
    · rw [show -((q : ℚ) * (2 : ℚ) ^ t) - -X = -((q : ℚ) * (2 : ℚ) ^ t - X) by ring, abs_neg]
      refine le_trans hg (le_trans hsum ?_)
      rw [show (m : ℚ) * (2 : ℚ) ^ e - -X = (m : ℚ) * (2 : ℚ) ^ e + X by ring]
      exact le_abs_self _
    · rw [show -((q : ℚ) * (2 : ℚ) ^ t) - -X = -((q : ℚ) * (2 : ℚ) ^ t - X) by ring, abs_neg,
        show -((m : ℚ) * (2 : ℚ) ^ e) - -X = -((m : ℚ) * (2 : ℚ) ^ e - X) by ring, abs_neg]
      exact hg

/-- The sign factor of a product or quotient of two signed values. -/
theorem sign_xor (a b : Bool) :
    ((if xor a b then -1 else 1 : ℚ)) = (if a then -1 else 1) * (if b then -1 else 1) := by
  cases a <;> cases b <;> simp

/-- The magnitude of an integer, over the rationals. -/
theorem natAbs_cast_rat (s : Int) : ((s.natAbs : ℚ)) = |(s : ℚ)| := by
  rw [Nat.cast_natAbs, Int.cast_abs]

/-- The signed zero is a nearest value of the rational zero. -/
theorem isNearest_zero (neg : Bool) : F64.IsNearest 0 (F64.fin neg 0 F64.eMin) := by
  refine ⟨⟨neg, 0, F64.eMin, rfl⟩, ?_, ?_⟩
  · refine ⟨by norm_num, le_refl _, by simp [F64.eMin, F64.eMax], fun _ => rfl⟩
  · intro nz m e _
    simp [F64.toRat]

/-- The conversion `float64(n)` gives a binary64 nearest to `n`. -/
theorem ofInt_nearest (n : Int) (hmax : |(n : ℚ)| ≤ F64.maxFinite) :
    F64.IsNearest (n : ℚ) (F64.ofInt n) := by
  have hX : F64.StandsFor n.natAbs 0 ((n.natAbs : ℚ)) := Or.inl (by simp)
  have habs := natAbs_cast_rat n
  have h := round_nearest (decide (n < 0)) n.natAbs 0 _ hX (by rw [habs]; exact hmax)
  have hs : (if decide (n < 0) = true then (-1 : ℚ) else 1) * (n.natAbs : ℚ) = (n : ℚ) := by
    rw [habs]
    by_cases hn : n < 0
    · have : (n : ℚ) < 0 := by exact_mod_cast hn
      simp [hn, abs_of_neg this]
    · have : (0 : ℚ) ≤ (n : ℚ) := by exact_mod_cast (not_lt.1 hn)
      simp [hn, abs_of_nonneg this]
  rw [hs] at h
  exact h

/-- Go's `x + y` on finite values gives a binary64 nearest to the exact sum,
whenever that sum is within the finite range. -/
theorem add_nearest (a : Bool) (m1 : Nat) (e1 : Int) (b : Bool) (m2 : Nat) (e2 : Int)
    (hmax : |F64.toRat (F64.fin a m1 e1) + F64.toRat (F64.fin b m2 e2)| ≤ F64.maxFinite) :
    F64.IsNearest (F64.toRat (F64.fin a m1 e1) + F64.toRat (F64.fin b m2 e2))
      (F64.add (F64.fin a m1 e1) (F64.fin b m2 e2)) := by
  have h2 : (2 : ℚ) ≠ 0 := by norm_num
  have hscale : ∀ (c : Bool) (m : Nat) (e e' : Int), e' ≤ e →
      (((if c then -1 else 1 : Int) * ((m * 2 ^ (e - e').toNat : Nat) : Int) : Int) : ℚ) *
        (2 : ℚ) ^ e' = F64.toRat (F64.fin c m e) := by
    intro c m e e' hle
    obtain ⟨j, hj⟩ : ∃ j : Nat, e - e' = (j : Int) := ⟨(e - e').toNat, by omega⟩
    have hj' : (e - e').toNat = j := by omega
    have he : (2 : ℚ) ^ e = (2 : ℚ) ^ (j : Int) * (2 : ℚ) ^ e' := by
      rw [← zpow_add₀ h2]; congr 1; omega
    rw [hj', F64.toRat, he, zpow_natCast]
    cases c <;> simp <;> ring
  have hx := hscale a m1 e1 (min e1 e2) (min_le_left _ _)
  have hy := hscale b m2 e2 (min e1 e2) (min_le_right _ _)
  simp only [F64.add]
  generalize hxi : (if a then -1 else 1 : Int) * ((m1 * 2 ^ (e1 - min e1 e2).toNat : Nat) : Int)
    = x at hx
  generalize hyi : (if b then -1 else 1 : Int) * ((m2 * 2 ^ (e2 - min e1 e2).toNat : Nat) : Int)
    = y at hy
  have hS : F64.toRat (F64.fin a m1 e1) + F64.toRat (F64.fin b m2 e2) =
      ((x + y : Int) : ℚ) * (2 : ℚ) ^ (min e1 e2) := by
    rw [← hx, ← hy]; push_cast; ring
  rw [hS] at hmax ⊢
  by_cases hs : x + y = 0
  · rw [if_pos hs, hs]
    simpa using isNearest_zero (a && b)
  · rw [if_neg hs]
    generalize x + y = s at hs hmax
    have hP : (0 : ℚ) < (2 : ℚ) ^ (min e1 e2) := by positivity
    have habs := natAbs_cast_rat s
    have hX : F64.StandsFor s.natAbs (min e1 e2) ((s.natAbs : ℚ) * (2 : ℚ) ^ (min e1 e2)) := by
      left
      rw [mul_assoc, ← zpow_add₀ h2]; simp
    have hle : (s.natAbs : ℚ) * (2 : ℚ) ^ (min e1 e2) ≤ F64.maxFinite := by
      rw [habs]
      rw [abs_mul, abs_of_pos hP] at hmax
      exact hmax
    have h := round_nearest (decide (s < 0)) s.natAbs (min e1 e2) _ hX hle
    have hsign : (if decide (s < 0) = true then (-1 : ℚ) else 1) *
        ((s.natAbs : ℚ) * (2 : ℚ) ^ (min e1 e2)) = (s : ℚ) * (2 : ℚ) ^ (min e1 e2) := by
      rw [habs]
      by_cases hn : s < 0
      · have : (s : ℚ) < 0 := by exact_mod_cast hn
        simp [hn, abs_of_neg this]
      · have : (0 : ℚ) ≤ (s : ℚ) := by exact_mod_cast (not_lt.1 hn)
        simp [hn, abs_of_nonneg this]
    rw [hsign] at h
    exact h

/-- Go's `x / y` on finite values with a non-zero divisor gives a binary64
nearest to the exact quotient, whenever that quotient is within the finite
range. -/
theorem div_nearest (a : Bool) (m1 : Nat) (e1 : Int) (b : Bool) (m2 : Nat) (e2 : Int)
    (hm2 : m2 ≠ 0)
    (hmax : |F64.toRat (F64.fin a m1 e1) / F64.toRat (F64.fin b m2 e2)| ≤ F64.maxFinite) :
    F64.IsNearest (F64.toRat (F64.fin a m1 e1) / F64.toRat (F64.fin b m2 e2))
      (F64.div (F64.fin a m1 e1) (F64.fin b m2 e2)) := by
  have h2 : (2 : ℚ) ≠ 0 := by norm_num
  have hm2' : (m2 : ℚ) ≠ 0 := by exact_mod_cast hm2
  have hm2pos : (0 : ℚ) < (m2 : ℚ) := by
    have : 0 < m2 := Nat.pos_of_ne_zero hm2
    exact_mod_cast this
  -- the exact quotient: sign times magnitude
  have hquot : F64.toRat (F64.fin a m1 e1) / F64.toRat (F64.fin b m2 e2) =
      (if xor a b then -1 else 1) * ((m1 : ℚ) / (m2 : ℚ) * (2 : ℚ) ^ (e1 - e2)) := by
    rw [sign_xor, zpow_sub₀ h2]
    simp only [F64.toRat]
    have hP : (2 : ℚ) ^ e2 ≠ 0 := zpow_ne_zero _ h2
    cases a <;> cases b <;> field_simp
  simp only [F64.div]
  rw [if_neg hm2]
  by_cases hm1 : m1 = 0
  · rw [if_pos hm1, hquot, hm1]
    simpa using isNearest_zero (xor a b)
  · rw [if_neg hm1, hquot]
    have hXabs : |F64.toRat (F64.fin a m1 e1) / F64.toRat (F64.fin b m2 e2)| =
        (m1 : ℚ) / (m2 : ℚ) * (2 : ℚ) ^ (e1 - e2) := by
      rw [hquot, abs_mul]
      have h1 : |(if xor a b then (-1 : ℚ) else 1)| = 1 := by
        cases xor a b <;> simp
      rw [h1, one_mul, abs_of_nonneg (by positivity)]
    rw [hXabs] at hmax
    apply round_nearest _ _ _ _ _ hmax
    -- the sticky quotient stands for the exact quotient
    generalize hk : 64 + bitLen m2 = k
    have hdm := Nat.div_add_mod (m1 * 2 ^ k) m2
    have hr := Nat.mod_lt (m1 * 2 ^ k) (Nat.pos_of_ne_zero hm2)
    have hq64 : 2 ^ 64 ≤ m1 * 2 ^ k / m2 := by
      rw [Nat.le_div_iff_mul_le (Nat.pos_of_ne_zero hm2)]
      have h1 : 2 ^ 64 * m2 ≤ 2 ^ 64 * 2 ^ bitLen m2 :=
        Nat.mul_le_mul_left _ (le_of_lt (lt_two_pow_bitLen m2))
      have h3 : 2 ^ 64 * 2 ^ bitLen m2 = 2 ^ k := by rw [← Nat.pow_add, hk]
      have h4 : 2 ^ k ≤ m1 * 2 ^ k := Nat.le_mul_of_pos_left _ (Nat.pos_of_ne_zero hm1)
      omega
    generalize m1 * 2 ^ k / m2 = q at hdm hq64
    generalize hrr : m1 * 2 ^ k % m2 = r at hdm hr
    have hdmQ : (m1 : ℚ) * (2 : ℚ) ^ k = (m2 : ℚ) * (q : ℚ) + (r : ℚ) := by
      have : ((m2 * q + r : Nat) : ℚ) = ((m1 * 2 ^ k : Nat) : ℚ) := by rw [hdm]
      push_cast at this
      linarith
    have hscaled : (m1 : ℚ) / (m2 : ℚ) * (2 : ℚ) ^ (e1 - e2) *
        (2 : ℚ) ^ (-(e1 - e2 - (k : Int) - 1)) = 2 * (q : ℚ) + 2 * (r : ℚ) / (m2 : ℚ) := by
      have hpow : (2 : ℚ) ^ (e1 - e2) * (2 : ℚ) ^ (-(e1 - e2 - (k : Int) - 1)) =
          (2 : ℚ) ^ k * 2 := by
        rw [← zpow_natCast, ← zpow_add₀ h2, ← zpow_add_one₀ h2]; congr 1; omega
      rw [mul_assoc, hpow]
      field_simp
      linear_combination (2 : ℚ) * hdmQ
    by_cases hr0 : r = 0
    · left
      rw [hscaled]
      subst hr0
      simp
    · right
      rw [if_neg hr0]
      have hrpos : (0 : ℚ) < (r : ℚ) := by
        have : 0 < r := Nat.pos_of_ne_zero hr0
        exact_mod_cast this
      have hrlt : (r : ℚ) < (m2 : ℚ) := by exact_mod_cast hr
      have hfrac0 : (0 : ℚ) < 2 * (r : ℚ) / (m2 : ℚ) := by positivity
      have hfrac2 : 2 * (r : ℚ) / (m2 : ℚ) < 2 := by
        rw [div_lt_iff₀ hm2pos]; linarith
      refine ⟨by omega, by omega, ?_, ?_⟩
      · rw [hscaled]; push_cast; linarith
      · rw [hscaled]; push_cast; linarith

/-! ## The aggregate is the rounded sum over the count -/

/-- C1: when the token exchange, the device list, the thing fetch and the
time-series fetch succeed and the series is not empty, `formTOPala` is called
once and its aggregate is the sum of the sample values, accumulated left to
right from zero, divided by the number of samples, in `float64` arithmetic:
each `+` gives a binary64 nearest to the exact sum of its operands, the `/`
a binary64 nearest to the exact quotient, and the conversion of the count a
binary64 nearest to the count (whenever these are finite and within the
finite range). -/
theorem aggregate_is_sum_div_count (w : World) (tok : Token) (devices : List Device)
    (thing : Thing) (data : List Sample)
    (htok : w.token (config w) = Except.ok tok)
    (hdev : w.devicesV2List tok.AccessToken = Except.ok devices)
    (hthing : w.thingsV2Show tok.AccessToken (w.getenv "thingID") = Except.ok thing)
    (hdata : w.propertiesV2Timeseries tok.AccessToken (w.getenv "thingID") (w.getenv "pid")
      (fromFilter w) = (data, none))
    (_hne : data ≠ []) :
    aggregates (main w).trace =
      [F64.div (List.foldl F64.add F64.zero (data.map Sample.Value))
        (F64.ofInt (data.map Sample.Value).length)] ∧
    F64.toRat F64.zero = 0 ∧
    (∀ a m1 e1 b m2 e2,
      |F64.toRat (F64.fin a m1 e1) + F64.toRat (F64.fin b m2 e2)| ≤ F64.maxFinite →
      F64.IsNearest (F64.toRat (F64.fin a m1 e1) + F64.toRat (F64.fin b m2 e2))
        (F64.add (F64.fin a m1 e1) (F64.fin b m2 e2))) ∧
    (∀ a m1 e1 b m2 e2, m2 ≠ 0 →
      |F64.toRat (F64.fin a m1 e1) / F64.toRat (F64.fin b m2 e2)| ≤ F64.maxFinite →
      F64.IsNearest (F64.toRat (F64.fin a m1 e1) / F64.toRat (F64.fin b m2 e2))
        (F64.div (F64.fin a m1 e1) (F64.fin b m2 e2))) ∧
    (∀ n : Int, |(n : ℚ)| ≤ F64.maxFinite → F64.IsNearest (n : ℚ) (F64.ofInt n)) := by
  refine ⟨?_, by simp [F64.zero, F64.toRat], add_nearest, div_nearest, ofInt_nearest⟩
  have hagg := aggregates_formTOPala w thing.Id (w.getenv "sensorID")
    (F64.div (sumValues data) (F64.ofInt data.length)) w.nowSubmit
  have hsum : sumValues data = List.foldl F64.add F64.zero (data.map Sample.Value) := by
    simp [sumValues, List.foldl_map]
  simp only [main, htok, hdev, hthing, hdata]
  simp only [aggregates] at hagg ⊢
  rw [List.filterMap_append, hagg, hsum]
  simp [deviceLog]
  split <;> simp

set_option maxRecDepth 100000 in
theorem aggregate_is_sum_div_count_witness :
    aggregates (main demoWorld).trace = [F64.fin false 6008083377888952 (-48)] :=
  (aggregate_is_sum_div_count demoWorld ⟨"tok", ⟨1700003600, 0⟩⟩ [] ⟨"T1"⟩
    [⟨⟨1699999000, 0⟩, decimal 213 1⟩, ⟨⟨1699999500, 0⟩, decimal 2139 2⟩]
    rfl rfl rfl rfl (by simp)).1.trans (by decide)

end ArduinoCloudHumidity
